import Mathlib

/-!
Verification of the contour/geometry/ranking core of the PostEventSummary
repository.  Python source functions from `bin/EQCalculations.py`,
`bin/ShakeAlertParser.py`, `bin/PyCities.py` and `bin/PyEventImage.py` are
shallowly embedded as executable Lean definitions over `ℚ`, `ℤ`, `ℕ`,
`List` and `Except`/`Option` (the latter modelling Python exceptions and
error returns).  Real-valued library calls that have no exact rational
counterpart (haversine distance, square root, arc tangent) are either
abstracted as function parameters of the embedded code (they never affect
the control flow under verification) or represented by exact squared
quantities, as documented at each definition.
-/

namespace PES

/-! ## EQCalculations.point_in_poly (ray casting)

Python source (`bin/EQCalculations.py`, lines 21-46):

```
n = len(poly)
inside = False
p1x,p1y = poly[0]
for i in range(n+1):
    p2x,p2y = poly[i % n]
    if y > min(p1y,p2y):
        if y <= max(p1y,p2y):
            if x <= max(p1x,p2x):
                if p1y != p2y:
                    xints = (y-p1y)*(p2x-p1x)/(p2y-p1y)+p1x
                if p1x == p2x or x <= xints:
                    inside = not inside
        p1x,p1y = p2x,p2y
return inside
```

The embedding returns `Option Bool`: `none` models the two failure modes of
the source, namely `poly[0]` on an empty list (IndexError) and evaluation of
`x <= xints` on a path where `xints` was never assigned for the current edge
(in Python this would read a stale or unbound `xints`; the safety theorem
shows this path is unreachable, so on every reachable path the embedding and
the source agree).  The division `(y-p1y)*(p2x-p1x)/(p2y-p1y)` appears only
under the guard `p1y ≠ p2y`, exactly as in the source. -/

/-- One iteration of the ray-casting loop body for edge `(p1, p2)`:
updates the `inside` flag, or `none` on the unreachable stale-`xints` path. -/
def edgeStep (x y : ℚ) (p1 p2 : ℚ × ℚ) (inside : Bool) : Option Bool :=
  if y > min p1.2 p2.2 then
    if y ≤ max p1.2 p2.2 then
      if x ≤ max p1.1 p2.1 then
        if p1.2 ≠ p2.2 then
          -- xints is assigned; the division is by p2.2 - p1.2 ≠ 0
          let xints := (y - p1.2) * (p2.1 - p1.1) / (p2.2 - p1.2) + p1.1
          if p1.1 = p2.1 ∨ x ≤ xints then some (!inside) else some inside
        else
          -- p1y == p2y: Python would test `p1x == p2x or x <= xints` with
          -- xints unassigned for this edge
          if p1.1 = p2.1 then some (!inside) else none
      else some inside
    else some inside
  else some inside

/-- The loop of `point_in_poly`: fold `edgeStep` over the successive `p2`
vertices, threading the previous vertex `p1` and the `inside` flag (carried
as `Option Bool`; a `none` produced by any iteration is propagated). -/
def pipLoop (x y : ℚ) : ℚ × ℚ → List (ℚ × ℚ) → Option Bool → Option Bool
  | _, [], acc => acc
  | p1, p2 :: rest, acc => pipLoop x y p2 rest (acc.bind (edgeStep x y p1 p2))

/-- `EQCalculations.point_in_poly`.  The Python loop visits
`poly[i % n]` for `i = 0, …, n`, starting from `p1 = poly[0]` and
`inside = False`. -/
def point_in_poly (x y : ℚ) (poly : List (ℚ × ℚ)) : Option Bool :=
  match poly with
  | [] => none  -- poly[0] raises IndexError
  | p0 :: _ =>
    pipLoop x y p0
      (((List.range (poly.length + 1)).map
        (fun i => poly.getD (i % poly.length) (0, 0)))) (some false)

/-- `edgeStep` never takes the unreachable error path: when the two edge
endpoints share a `y` value, `min p1y p2y = max p1y p2y`, so the guards
`y > min` and `y ≤ max` cannot both hold. -/
theorem edgeStep_isSome (x y : ℚ) (p1 p2 : ℚ × ℚ) (inside : Bool) :
    (edgeStep x y p1 p2 inside).isSome := by
  unfold edgeStep
  split
  · split
    · split
      · split
        · dsimp only; split <;> simp
        · rename_i hgt hle _ hy
          simp only [ne_eq, not_not] at hy
          rw [hy] at hgt hle
          simp only [min_self] at hgt
          simp only [max_self] at hle
          exact absurd hle (not_le.mpr hgt)
      · simp
    · simp
  · simp

/-- The loop is total: starting from a `some` state it ends in a `some`
state. -/
theorem pipLoop_isSome (x y : ℚ) (l : List (ℚ × ℚ)) :
    ∀ (p1 : ℚ × ℚ) (acc : Option Bool), acc.isSome → (pipLoop x y p1 l acc).isSome := by
  induction l with
  | nil => intro p1 acc h; exact h
  | cons p2 rest ih =>
    intro p1 acc h
    rcases Option.isSome_iff_exists.mp h with ⟨b, hb⟩
    subst hb
    exact ih p2 _ (by simpa using edgeStep_isSome x y p1 p2 b)

/-- For a horizontal edge (`p1y = p2y`) the ray-casting step leaves the
`inside` flag unchanged and never reaches the intersection division: the
guards `y > min p1y p2y` and `y ≤ max p1y p2y` are contradictory. -/
theorem edgeStep_horizontal (x y : ℚ) (p1 p2 : ℚ × ℚ) (inside : Bool)
    (h : p1.2 = p2.2) : edgeStep x y p1 p2 inside = some inside := by
  unfold edgeStep
  rw [h]
  simp only [min_self, max_self]
  split
  · rename_i hgt
    split
    · rename_i hle
      exact absurd hle (not_le.mpr hgt)
    · rfl
  · rfl

/-! ## Python-value results for intensity lookups

`EQCalculations.getIntensityLevel` returns either an `int` (the MMI of a
containing polygon, numeric form) or a `str` (a roman numeral, or the
below-minimum sentinels `"1"` / `"<II"`); Python has no difficulty mixing
the two, so the embedding uses a small sum type. -/

/-- A dynamically-typed Python return value: either an integer or a string. -/
inductive PyVal where
  | num (n : ℤ)
  | str (s : String)
deriving DecidableEq, Repr

/-- `EQCalculations.intensityRomanNumeral` (lines 172-187): fixed lookup
for MMI 1..10; any other value (in the source, e.g. an `str` input) is
passed through unchanged. -/
def intensityRomanNumeral (MMI : ℤ) : PyVal :=
  if MMI = 1 then .str "<II"
  else if MMI = 2 then .str "II"
  else if MMI = 3 then .str "III"
  else if MMI = 4 then .str "IV"
  else if MMI = 5 then .str "V"
  else if MMI = 6 then .str "VI"
  else if MMI = 7 then .str "VII"
  else if MMI = 8 then .str "VIII"
  else if MMI = 9 then .str "IX"
  else if MMI = 10 then .str "X"
  else .num MMI

/-- `EQCalculations.getIntensityLevel` (lines 130-170).  Each element of
`MMIlist` pairs an MMI value with a polygon; the source receives the
polygon as a `"lat,lon lat,lon ..."` string and parses it into
`(float(lonp), float(latp))` pairs — here the polygon is represented by its
parsed list of `(lat, lon)` rational pairs and the map below performs the
same `(lat, lon) → (lon, lat)` swap.  The point test is
`point_in_poly(float(lon), float(lat), polygon)`.  A `none` result models a
Python exception (only possible for an empty polygon, see
`point_in_poly`). -/
def getIntensityLevel (MMIlist : List (ℤ × List (ℚ × ℚ))) (lat lon : ℚ)
    (getRomanNum : Bool) : Option PyVal :=
  match MMIlist with
  | [] => some (if getRomanNum then .str "<II" else .str "1")
  | (MMIval, coords) :: rest =>
    let polygon := coords.map (fun c => (c.2, c.1))
    match point_in_poly lon lat polygon with
    | none => none
    | some true =>
      some (if getRomanNum then intensityRomanNumeral MMIval else .num MMIval)
    | some false => getIntensityLevel rest lat lon getRomanNum

/-- C9: For every polygon given as a non-empty vertex list and every query
point, `point_in_poly` terminates and returns a boolean — it never reaches
the unguarded-intersection state (`none`), so no division by zero is ever
evaluated; moreover for any horizontal edge (`p1y = p2y`) the
crossing-intersection division is never executed (the step returns the
`inside` flag unchanged). -/
theorem point_in_poly_total (x y : ℚ) (poly : List (ℚ × ℚ)) (h : poly ≠ []) :
    (∃ b, point_in_poly x y poly = some b) ∧
      (∀ p1 p2 inside, p1.2 = p2.2 → edgeStep x y p1 p2 inside = some inside) := by
  constructor
  · match poly, h with
    | p0 :: rest, _ =>
      exact Option.isSome_iff_exists.mp
        (pipLoop_isSome x y _ p0 (some false) rfl)
  · intro p1 p2 inside hy
    exact edgeStep_horizontal x y p1 p2 inside hy

/-- Witness for C9 on a concrete closed square and interior point. -/
theorem point_in_poly_total_witness :
    ∃ b, point_in_poly 2 2 [(0, 0), (4, 0), (4, 4), (0, 4), (0, 0)] = some b :=
  (point_in_poly_total 2 2 [(0, 0), (4, 0), (4, 4), (0, 4), (0, 0)]
    (by decide)).1

/-- Helper: a nonempty polygon makes `point_in_poly` return `some`. -/
theorem point_in_poly_isSome (x y : ℚ) (poly : List (ℚ × ℚ)) (h : poly ≠ []) :
    (point_in_poly x y poly).isSome := by
  match poly, h with
  | p0 :: rest, _ => exact pipLoop_isSome x y _ p0 (some false) rfl

/-- C6: `getIntensityLevel` returns the MMI of the first polygon in the
given order that contains the point (rendered through
`intensityRomanNumeral` when the roman form is requested), and the
below-minimum sentinel — `"1"` numeric, `"<II"` roman — when no polygon
contains the point.  The hypothesis excludes empty polygons, on which the
source would raise before any answer. -/
theorem getIntensityLevel_spec (MMIlist : List (ℤ × List (ℚ × ℚ)))
    (lat lon : ℚ) (getRomanNum : Bool)
    (h : ∀ p ∈ MMIlist, p.2 ≠ []) :
    getIntensityLevel MMIlist lat lon getRomanNum =
      some (match MMIlist.find?
          (fun p => point_in_poly lon lat (p.2.map (fun c => (c.2, c.1)))
            == some true) with
        | some p => if getRomanNum then intensityRomanNumeral p.1 else .num p.1
        | none => if getRomanNum then .str "<II" else .str "1") := by
  induction MMIlist with
  | nil => rfl
  | cons hd tl ih =>
    obtain ⟨MMIval, coords⟩ := hd
    have hhd : coords ≠ [] := h _ (List.mem_cons_self _ _)
    have hmap : coords.map (fun c => (c.2, c.1)) ≠ [] := by
      simpa using hhd
    have hsome := point_in_poly_isSome lon lat _ hmap
    rcases Option.isSome_iff_exists.mp hsome with ⟨b, hb⟩
    rw [getIntensityLevel, List.find?]
    cases b with
    | true =>
      rw [hb]
      simp [hb]
    | false =>
      rw [hb]
      exact ih (fun p hp => h p (List.mem_cons_of_mem _ hp))

/-- Witness for C6: two concrete square contours, the point lies only in
the outer (second) one, so its MMI is returned in numeric form. -/
theorem getIntensityLevel_spec_witness :
    getIntensityLevel
      [(5, [(0, 0), (1, 0), (1, 1), (0, 1), (0, 0)]),
       (3, [(0, 0), (8, 0), (8, 8), (0, 8), (0, 0)])] 6 6 false =
      some (PyVal.num 3) :=
  (getIntensityLevel_spec
      [(5, [(0, 0), (1, 0), (1, 1), (0, 1), (0, 0)]),
       (3, [(0, 0), (8, 0), (8, 8), (0, 8), (0, 0)])] 6 6 false
      (by decide)).trans (by decide)

/-! ## ShakeAlertParser.Get_polygons (lines 438-465)

```
allMMIpolys = []
for contour in gm_contours:
    MMI    = contour.get('mmi')
    MMIval = str(MMI)[:1]
    polystr   = contour.get('polygon')
    allMMIpolys.append([int(MMIval), polystr])
allMMIpolys = sorted(allMMIpolys, key=lambda x: x[0], reverse=True)
return allMMIpolys
```

A raw contour is represented by its `mmi` (a natural number, as in the
event JSON) and its polygon string.  `str(MMI)[:1]` keeps only the first
character of the decimal representation, i.e. the leading digit.
`sorted(..., reverse=True)` is a stable descending sort by the MMI key; a
stable sort is extensionally unique, so the stable descending insertion
sort below produces the identical list. -/

/-- Strip trailing decimal digits until one digit is left (`fuel` bounds
the recursion; `fuel = n` always suffices). -/
def leadDigit : ℕ → ℕ → ℕ
  | 0, n => n
  | fuel + 1, n => if n < 10 then n else leadDigit fuel (n / 10)

/-- Leading decimal digit of `n` — the embedding of `int(str(MMI)[:1])`. -/
def truncMMI (n : ℕ) : ℕ := leadDigit n n

/-- Stable insertion into a descending-by-key list: `a` goes in front of
the first element whose key is not greater than `a`'s. -/
def insertDesc (a : ℤ × String) : List (ℤ × String) → List (ℤ × String)
  | [] => [a]
  | b :: l => if b.1 > a.1 then b :: insertDesc a l else a :: b :: l

/-- Stable descending-by-key insertion sort (equal to Python's
`sorted(..., key=lambda x: x[0], reverse=True)`). -/
def sortDesc : List (ℤ × String) → List (ℤ × String)
  | [] => []
  | a :: l => insertDesc a (sortDesc l)

/-- `ShakeAlertParser.Get_polygons`. -/
def Get_polygons (gm_contours : List (ℕ × String)) : List (ℤ × String) :=
  sortDesc (gm_contours.map (fun c => ((truncMMI c.1 : ℤ), c.2)))

/-- Membership in `insertDesc`. -/
theorem mem_insertDesc {c a : ℤ × String} {l : List (ℤ × String)} :
    c ∈ insertDesc a l ↔ c = a ∨ c ∈ l := by
  induction l with
  | nil => simp [insertDesc]
  | cons b t ih =>
    simp only [insertDesc]
    split
    · simp only [List.mem_cons, ih]
      tauto
    · simp only [List.mem_cons]

/-- `insertDesc` preserves descending sortedness. -/
theorem sorted_insertDesc (a : ℤ × String) (l : List (ℤ × String))
    (h : List.Sorted (fun p q : ℤ × String => q.1 ≤ p.1) l) :
    List.Sorted (fun p q : ℤ × String => q.1 ≤ p.1) (insertDesc a l) := by
  induction l with
  | nil => simp [insertDesc, List.Sorted]
  | cons b t ih =>
    rw [List.sorted_cons] at h
    obtain ⟨hb, ht⟩ := h
    simp only [insertDesc]
    split
    · rename_i hgt
      rw [List.sorted_cons]
      refine ⟨?_, ih ht⟩
      intro c hc
      rcases mem_insertDesc.mp hc with rfl | hct
      · exact le_of_lt hgt
      · exact hb c hct
    · rename_i hle
      push_neg at hle
      rw [List.sorted_cons]
      refine ⟨?_, List.sorted_cons.mpr ⟨hb, ht⟩⟩
      intro c hc
      rcases List.mem_cons.mp hc with rfl | hct
      · exact hle
      · exact le_trans (hb c hct) hle

/-- `sortDesc` output is sorted descending by key. -/
theorem sorted_sortDesc (l : List (ℤ × String)) :
    List.Sorted (fun p q : ℤ × String => q.1 ≤ p.1) (sortDesc l) := by
  induction l with
  | nil => simp [sortDesc, List.Sorted]
  | cons a t ih => exact sorted_insertDesc a _ ih

/-- C10: for every input contour list, `Get_polygons` returns its
(MMI, polygon-string) pairs sorted by MMI in descending
(greatest-to-least) order — the documented ordering precondition of
`getIntensityLevel`. -/
theorem Get_polygons_sorted (gm_contours : List (ℕ × String)) :
    List.Sorted (fun p q : ℤ × String => q.1 ≤ p.1) (Get_polygons gm_contours) :=
  sorted_sortDesc _

/-! ## ShakeAlertParser.Coord and GMContour (lines 277-325)

`Coord` is an immutable (lat, lon) pair with field-wise equality.
`GMContour.__init__` stores the MMI, validates that the polygon's first
coordinate equals its last (raising `ValueError` otherwise), and stores the
polygon, `pga` and `pgv` unchanged.  The embedding returns
`Except String GMContour`; an empty polygon (where Python's `polygon[0]`
raises `IndexError` before the closure check) is a distinct error. -/

/-- `ShakeAlertParser.Coord`. -/
structure Coord where
  lat : ℚ
  lon : ℚ
deriving DecidableEq, Repr

/-- `ShakeAlertParser.GMContour`: the stored fields after a successful
construction. -/
structure GMContour where
  mmi : ℤ
  polygon : List Coord
  pga : Option ℚ
  pgv : Option ℚ
deriving DecidableEq, Repr

/-- `GMContour.__init__` as a checked constructor. -/
def GMContour.make (mmi : ℤ) (polygon : List Coord) (pga pgv : Option ℚ) :
    Except String GMContour :=
  match polygon with
  | [] => .error "IndexError"  -- polygon[0] on an empty list
  | p0 :: rest =>
    if p0 ≠ (p0 :: rest).getLast (by simp) then
      .error "ValueError: Polygon coordinate list is not closed."
    else
      .ok ⟨mmi, p0 :: rest, pga, pgv⟩

/-- C5: for a non-empty vertex list, constructing a `GMContour` fails with
the closure validation error exactly when the first coordinate differs
from the last; on success the contour stores exactly the given vertex list
(and the given mmi/pga/pgv) unchanged. -/
theorem GMContour_make_spec (mmi : ℤ) (polygon : List Coord)
    (pga pgv : Option ℚ) (h : polygon ≠ []) :
    (GMContour.make mmi polygon pga pgv =
        .error "ValueError: Polygon coordinate list is not closed." ↔
      polygon.head h ≠ polygon.getLast h) ∧
      (polygon.head h = polygon.getLast h →
        GMContour.make mmi polygon pga pgv = .ok ⟨mmi, polygon, pga, pgv⟩) := by
  match polygon, h with
  | p0 :: rest, _ =>
    simp only [GMContour.make, List.head_cons]
    constructor
    · split
      · rename_i hne
        exact ⟨fun _ => hne, fun _ => rfl⟩
      · rename_i hne
        simp only [ne_eq, not_not] at hne
        constructor
        · intro hcontra
          simp at hcontra
        · intro hcontra
          exact absurd hne hcontra
    · intro heq
      split
      · rename_i hne
        exact absurd heq hne
      · rfl

/-- Witness for C5: a concrete closed triangle constructs successfully and
stores its vertices unchanged. -/
theorem GMContour_make_spec_witness :
    GMContour.make 4 [⟨0, 0⟩, ⟨1, 0⟩, ⟨0, 1⟩, ⟨0, 0⟩] (some 1) none =
      .ok ⟨4, [⟨0, 0⟩, ⟨1, 0⟩, ⟨0, 1⟩, ⟨0, 0⟩], some 1, none⟩ :=
  (GMContour_make_spec 4 [⟨0, 0⟩, ⟨1, 0⟩, ⟨0, 1⟩, ⟨0, 0⟩] (some 1) none
    (by decide)).2 (by decide)

/-! ## Python dict modelling

Python dicts preserve first-insertion order; assigning to an existing key
overwrites its value in place.  A dict built by successive assignments is
modelled as an association list with `dictInsert` (which therefore never
holds duplicate keys). -/

/-- `d[k] = v` on a Python dict. -/
def dictInsert {K V : Type} [DecidableEq K] (k : K) (v : V) :
    List (K × V) → List (K × V)
  | [] => [(k, v)]
  | (k', v') :: rest =>
    if k' = k then (k, v) :: rest else (k', v') :: dictInsert k v rest

/-- Build a dict from a list of assignments, in order. -/
def dictOf {K V : Type} [DecidableEq K] (l : List (K × V)) : List (K × V) :=
  l.foldl (fun d p => dictInsert p.1 p.2 d) []

/-- Keys after a `dictInsert`. -/
theorem mem_keys_dictInsert {K V : Type} [DecidableEq K] {a k : K} {v : V}
    {d : List (K × V)} :
    a ∈ (dictInsert k v d).map Prod.fst ↔ a = k ∨ a ∈ d.map Prod.fst := by
  induction d with
  | nil => simp [dictInsert]
  | cons p rest ih =>
    obtain ⟨k', v'⟩ := p
    simp only [dictInsert]
    split
    · rename_i hk
      subst hk
      simp only [List.map_cons, List.mem_cons]
      tauto
    · simp only [List.map_cons, List.mem_cons, ih]
      tauto

/-- Every pair of a `dictInsert` result is the new pair or an old one. -/
theorem mem_dictInsert {K V : Type} [DecidableEq K] {p : K × V} {k : K} {v : V}
    {d : List (K × V)} (h : p ∈ dictInsert k v d) : p = (k, v) ∨ p ∈ d := by
  induction d with
  | nil => simpa [dictInsert] using h
  | cons q rest ih =>
    obtain ⟨k', v'⟩ := q
    simp only [dictInsert] at h
    split at h
    · rcases List.mem_cons.mp h with h1 | h2
      · exact Or.inl h1
      · exact Or.inr (List.mem_cons_of_mem _ h2)
    · rcases List.mem_cons.mp h with h1 | h2
      · exact Or.inr (h1 ▸ List.mem_cons_self _ _)
      · rcases ih h2 with h3 | h4
        · exact Or.inl h3
        · exact Or.inr (List.mem_cons_of_mem _ h4)

/-- Folding `dictInsert` only produces pairs from the accumulator or the
inserted list. -/
theorem mem_foldlInsert {K V : Type} [DecidableEq K] {p : K × V} :
    ∀ (l acc : List (K × V)),
      p ∈ l.foldl (fun d q => dictInsert q.1 q.2 d) acc → p ∈ acc ∨ p ∈ l
  | [], _, h => Or.inl h
  | q :: rest, acc, h => by
    rw [List.foldl_cons] at h
    rcases mem_foldlInsert rest (dictInsert q.1 q.2 acc) h with h1 | h2
    · rcases mem_dictInsert h1 with h3 | h4
      · exact Or.inr (h3 ▸ List.mem_cons_self _ _)
      · exact Or.inl h4
    · exact Or.inr (List.mem_cons_of_mem _ h2)

/-- Pairs of `dictOf l` all come from `l`. -/
theorem mem_dictOf {K V : Type} [DecidableEq K] {p : K × V} {l : List (K × V)}
    (h : p ∈ dictOf l) : p ∈ l := by
  rcases mem_foldlInsert l [] h with h1 | h2
  · simp at h1
  · exact h2

/-- Keys of a `dictInsert` fold. -/
theorem mem_keys_foldlInsert {K V : Type} [DecidableEq K] {a : K} :
    ∀ (l acc : List (K × V)),
      (a ∈ (l.foldl (fun d q => dictInsert q.1 q.2 d) acc).map Prod.fst ↔
        a ∈ acc.map Prod.fst ∨ a ∈ l.map Prod.fst)
  | [], _ => by simp
  | q :: rest, acc => by
    rw [List.foldl_cons, mem_keys_foldlInsert rest _]
    simp only [mem_keys_dictInsert, List.map_cons, List.mem_cons]
    tauto

/-- `dictOf` has exactly the keys of its input. -/
theorem mem_keys_dictOf {K V : Type} [DecidableEq K] {a : K} {l : List (K × V)} :
    a ∈ (dictOf l).map Prod.fst ↔ a ∈ l.map Prod.fst := by
  rw [dictOf, mem_keys_foldlInsert l []]
  simp

/-- An association-list lookup on a present key yields a member pair. -/
theorem lookup_mem {K V : Type} [DecidableEq K] {l : List (K × V)} {k : K}
    {v : V} (h : l.lookup k = some v) : (k, v) ∈ l := by
  induction l with
  | nil => simp [List.lookup] at h
  | cons p rest ih =>
    obtain ⟨k', v'⟩ := p
    rw [List.lookup] at h
    by_cases hk : k = k'
    · subst hk
      simp only [beq_self_eq_true] at h
      injection h with h
      exact h ▸ List.mem_cons_self _ _
    · have : (k == k') = false := beq_false_of_ne hk
      rw [this] at h
      exact List.mem_cons_of_mem _ (ih h)

/-- Lookup succeeds on every present key. -/
theorem lookup_isSome_of_mem_keys {K V : Type} [DecidableEq K]
    {l : List (K × V)} {k : K} (h : k ∈ l.map Prod.fst) :
    (l.lookup k).isSome := by
  induction l with
  | nil => simp at h
  | cons p rest ih =>
    obtain ⟨k', v'⟩ := p
    rw [List.lookup]
    by_cases hk : k = k'
    · subst hk
      simp
    · have hb : (k == k') = false := beq_false_of_ne hk
      rw [hb]
      simp only [List.map_cons, List.mem_cons] at h
      exact ih (h.resolve_left hk)

/-- Python's `min` over a non-empty sequence, as a left fold. -/
def pyMin (l : List ℤ) : Option ℤ :=
  match l with
  | [] => none  -- min() of an empty sequence raises ValueError
  | a :: t => some (t.foldl min a)

/-- `pyMin` returns a member that is a lower bound. -/
theorem pyMin_spec {l : List ℤ} {m : ℤ} (h : pyMin l = some m) :
    m ∈ l ∧ ∀ b ∈ l, m ≤ b := by
  match l, h with
  | a :: t, h =>
    rw [pyMin] at h
    injection h with h
    subst h
    clear h
    induction t generalizing a with
    | nil => simp
    | cons c t' ih =>
      rw [List.foldl_cons]
      obtain ⟨hmem, hlb⟩ := ih (min a c)
      constructor
      · rcases List.mem_cons.mp hmem with h1 | h2
        · rcases min_cases a c with ⟨he, _⟩ | ⟨he, _⟩
          · rw [h1, he]
            exact List.mem_cons_self _ _
          · rw [h1, he]
            exact List.mem_cons_of_mem _ (List.mem_cons_self _ _)
        · exact List.mem_cons_of_mem _ (List.mem_cons_of_mem _ h2)
      · intro b hb
        rcases List.mem_cons.mp hb with rfl | hb'
        · exact le_trans (hlb _ (List.mem_cons_self _ _)) (min_le_left _ _)
        · rcases List.mem_cons.mp hb' with rfl | hb''
          · exact le_trans (hlb _ (List.mem_cons_self _ _)) (min_le_right _ _)
          · exact hlb _ (List.mem_cons_of_mem _ hb'')

/-! ## ShakeAlertParser: initial-snapshot display-contour selection
(`ParseJSONContent`, lines 586-614)

```
MMIlist = Get_polygons(initialGMcontours)
mmi_initial = {}
for m in MMIlist:
    mmi_initial[m[0]] = m[1]
mmis = mmi_initial.keys()
if int(MMItoUse) in mmi_initial:
    MMItoShow = int(MMItoUse)
else:
    MMItoShow = min(mmis)
... mmi_initial[MMItoShow] ...
```
-/

/-- The single display contour picked for a snapshot from its
(MMI, polygon-string) list and the target MMI level (`MMItoUse`).
`none` models the `ValueError` of `min()` on an empty contour list (the
lookup fallbacks are unreachable). -/
def selectInitialContour (MMIlist : List (ℤ × String)) (target : ℤ) :
    Option (ℤ × String) :=
  let mmi_initial := dictOf MMIlist
  let mmis := mmi_initial.map Prod.fst
  if target ∈ mmis then
    match mmi_initial.lookup target with
    | some poly => some (target, poly)
    | none => none
  else
    match pyMin mmis with
    | none => none
    | some mn =>
      match mmi_initial.lookup mn with
      | some poly => some (mn, poly)
      | none => none

/-- C3: for a non-empty contour list, with the magnitude-dependent target
level `t` (`low` below the magnitude threshold, `high` at or above it), the
selected display contour is one of the given contours; it is the one at
MMI `t` when available, otherwise one whose MMI is the minimum of the
available MMI levels. -/
theorem selectInitialContour_spec (mag mag_threshold : ℚ) (low high : ℤ)
    (MMIlist : List (ℤ × String)) (h : MMIlist ≠ []) :
    ∃ mmi poly,
      selectInitialContour MMIlist
          (if mag < mag_threshold then low else high) = some (mmi, poly) ∧
        (mmi, poly) ∈ MMIlist ∧
        (if (if mag < mag_threshold then low else high) ∈ MMIlist.map Prod.fst
          then mmi = (if mag < mag_threshold then low else high)
          else ∀ b ∈ MMIlist.map Prod.fst, mmi ≤ b) := by
  set t := if mag < mag_threshold then low else high with ht
  simp only [selectInitialContour]
  by_cases hmem : t ∈ (dictOf MMIlist).map Prod.fst
  · have hmem' : t ∈ MMIlist.map Prod.fst := mem_keys_dictOf.mp hmem
    rw [if_pos hmem]
    rcases Option.isSome_iff_exists.mp (lookup_isSome_of_mem_keys hmem)
      with ⟨poly, hpoly⟩
    rw [hpoly]
    refine ⟨t, poly, rfl, mem_dictOf (lookup_mem hpoly), ?_⟩
    rw [if_pos hmem']
  · have hmem' : t ∉ MMIlist.map Prod.fst := fun hc => hmem (mem_keys_dictOf.mpr hc)
    rw [if_neg hmem]
    have hne : (dictOf MMIlist).map Prod.fst ≠ [] := by
      match MMIlist, h with
      | p :: rest, _ =>
        intro hc
        have : p.1 ∈ (dictOf (p :: rest)).map Prod.fst :=
          mem_keys_dictOf.mpr (by simp)
        rw [hc] at this
        simp at this
    obtain ⟨a, t', ha⟩ := List.exists_cons_of_ne_nil hne
    have hmin : ∃ mn, pyMin ((dictOf MMIlist).map Prod.fst) = some mn := by
      rw [ha, pyMin]
      exact ⟨_, rfl⟩
    obtain ⟨mn, hmn⟩ := hmin
    rw [hmn]
    obtain ⟨hmnmem, hmnlb⟩ := pyMin_spec hmn
    rcases Option.isSome_iff_exists.mp (lookup_isSome_of_mem_keys hmnmem)
      with ⟨poly, hpoly⟩
    refine ⟨mn, poly, ?_, mem_dictOf (lookup_mem hpoly), ?_⟩
    · show (match (dictOf MMIlist).lookup mn with
        | some poly => some (mn, poly)
        | none => none) = some (mn, poly)
      rw [hpoly]
    · rw [if_neg hmem']
      intro b hb
      exact hmnlb b (mem_keys_dictOf.mpr hb)

/-- Witness for C3: contours at MMI {2,3,4,5,6}, magnitude below the
threshold, low target 3 — the MMI-3 contour is selected. -/
theorem selectInitialContour_spec_witness :
    ∃ mmi poly,
      selectInitialContour
          [(6, "p6"), (5, "p5"), (4, "p4"), (3, "p3"), (2, "p2")]
          (if (4 : ℚ) < 5 then 3 else 4) = some (mmi, poly) ∧
        (mmi, poly) ∈ [((6 : ℤ), "p6"), (5, "p5"), (4, "p4"), (3, "p3"), (2, "p2")] ∧
        (if (if (4 : ℚ) < 5 then (3 : ℤ) else 4) ∈
            ([((6 : ℤ), "p6"), (5, "p5"), (4, "p4"), (3, "p3"),
              (2, "p2")]).map Prod.fst
          then mmi = (if (4 : ℚ) < 5 then 3 else 4)
          else ∀ b ∈ ([((6 : ℤ), "p6"), (5, "p5"), (4, "p4"), (3, "p3"),
            (2, "p2")]).map Prod.fst, mmi ≤ b) :=
  selectInitialContour_spec 4 5 3 4
    [(6, "p6"), (5, "p5"), (4, "p4"), (3, "p3"), (2, "p2")] (by decide)

/-! ## ShakeAlertParser: magnitude → MMI-threshold decision
(`ParseJSONContent`, lines 579-690)

```
global MMItoUse
if(JSONValues.get("ANSSmag") and float(JSONValues["ANSSmag"]) < MagMapChange):
    MMItoUse = MMISmall
elif float(JSONValues.get('initial_mag')) < MagMapChange:
    MMItoUse = MMISmall
```

`MagMapChange`, `MMISmall` and `MMIAlert` are module-level values read from
the configuration file (which is outside `src/`); they are threaded as an
explicit configuration record.  In a fresh process the prior value of the
global `MMItoUse` is `MMIAlert` (line 29), which is what the fall-through
branch leaves in place.  The one resulting value is then used as the target
for the initial snapshot (line 598) and as `min_mmi` for both the final
(line 624) and peak-magnitude (line 662) snapshot filters
(`if m[0] >= min_mmi`). -/

/-- The three configured threshold values. -/
structure ThresholdCfg where
  magMapChange : ℚ
  mmiSmall : ℤ
  mmiAlert : ℤ

/-- The single per-event `MMItoUse` computed by `ParseJSONContent`
(lines 580-584), for a fresh process where the global starts at
`MMIAlert`. -/
def computeMMItoUse (cfg : ThresholdCfg) (anssMag : Option ℚ)
    (initial_mag : ℚ) : ℤ :=
  match anssMag with
  | some m =>
    if m < cfg.magMapChange then cfg.mmiSmall
    else if initial_mag < cfg.magMapChange then cfg.mmiSmall
    else cfg.mmiAlert
  | none =>
    if initial_mag < cfg.magMapChange then cfg.mmiSmall
    else cfg.mmiAlert

/-- The per-snapshot fields of one event record that feed the contour
display decisions (raw contours as (mmi, polygon-string) pairs). -/
structure EventRec where
  anssMag : Option ℚ
  initial_mag : ℚ
  peak_mag : ℚ
  mag : ℚ
  initialContours : List (ℕ × String)
  finalContours : List (ℕ × String)
  peakContours : List (ℕ × String)

/-- The display-contour outcome of `ParseJSONContent` for the three
snapshots: the single selected initial contour (lines 586-614), and the
kept (MMI ≥ `min_mmi`) contour lists of the final (lines 618-652) and
peak-magnitude (lines 656-688) snapshots, all driven by the one global
`MMItoUse`. -/
def parseEventDisplay (cfg : ThresholdCfg) (ev : EventRec) :
    Option (ℤ × String) × List (ℤ × String) × List (ℤ × String) :=
  let T := computeMMItoUse cfg ev.anssMag ev.initial_mag
  (selectInitialContour (Get_polygons ev.initialContours) T,
   (Get_polygons ev.finalContours).filter (fun m => decide (T ≤ m.1)),
   (Get_polygons ev.peakContours).filter (fun m => decide (T ≤ m.1)))

/-- Modelled from the spec claim C1 wording: the two-tier threshold a
snapshot would use if it were "evaluated against its own magnitude value":
the small-event MMI below the boundary, the large-event MMI at or above
it. -/
def specSnapshotThreshold (cfg : ThresholdCfg) (snapshotMag : ℚ) : ℤ :=
  if snapshotMag < cfg.magMapChange then cfg.mmiSmall else cfg.mmiAlert

/-- Modelled from the spec claim C1 wording: the contours a snapshot would
keep under its own-magnitude threshold. -/
def specKeptContours (cfg : ThresholdCfg) (snapshotMag : ℚ)
    (contours : List (ℕ × String)) : List (ℤ × String) :=
  (Get_polygons contours).filter
    (fun m => decide (specSnapshotThreshold cfg snapshotMag ≤ m.1))

/-- Counterexample to C1 as stated: with boundary 5, small MMI 3, large
MMI 4, an event whose initial magnitude is 4 but whose final-alert
magnitude is 6 keeps the MMI-3 contour of the final snapshot (the single
global threshold was computed from the initial magnitude), whereas the
claimed per-snapshot rule would use the large-event threshold 4 for the
final snapshot and drop it. -/
theorem parseEventDisplay_not_per_snapshot :
    (parseEventDisplay ⟨5, 3, 4⟩
        ⟨none, 4, 6, 6, [(3, "p")], [(4, "q"), (3, "r")], []⟩).2.1 =
      [(4, "q"), (3, "r")] ∧
    specKeptContours ⟨5, 3, 4⟩ 6 [(4, "q"), (3, "r")] = [(4, "q")] ∧
    (parseEventDisplay ⟨5, 3, 4⟩
        ⟨none, 4, 6, 6, [(3, "p")], [(4, "q"), (3, "r")], []⟩).2.1 ≠
      specKeptContours ⟨5, 3, 4⟩ 6 [(4, "q"), (3, "r")] :=
  ⟨by decide, by decide, by decide⟩

/-- C1 (amended): the minimum-MMI display threshold is computed once per
event — the small-event MMI applies exactly when the authoritative ANSS
magnitude is present and below the configured boundary, or the initial
snapshot's magnitude is below the boundary; otherwise the large-event MMI
applies — and that same single value drives all three snapshots (the
initial selection and the final and peak filters); no snapshot is
evaluated against its own magnitude. -/
theorem parseEventDisplay_single_threshold (cfg : ThresholdCfg) (ev : EventRec)
    (hne : cfg.mmiSmall ≠ cfg.mmiAlert) :
    (parseEventDisplay cfg ev =
      (selectInitialContour (Get_polygons ev.initialContours)
          (computeMMItoUse cfg ev.anssMag ev.initial_mag),
        (Get_polygons ev.finalContours).filter
          (fun m => decide (computeMMItoUse cfg ev.anssMag ev.initial_mag ≤ m.1)),
        (Get_polygons ev.peakContours).filter
          (fun m => decide (computeMMItoUse cfg ev.anssMag ev.initial_mag ≤ m.1)))) ∧
    (computeMMItoUse cfg ev.anssMag ev.initial_mag = cfg.mmiSmall ↔
      (∃ m, ev.anssMag = some m ∧ m < cfg.magMapChange) ∨
        ev.initial_mag < cfg.magMapChange) := by
  refine ⟨rfl, ?_⟩
  rcases hm : ev.anssMag with _ | m
  · simp only [computeMMItoUse]
    split
    · rename_i hlt
      exact ⟨fun _ => Or.inr hlt, fun _ => rfl⟩
    · rename_i hge
      constructor
      · intro hc
        exact absurd hc.symm hne
      · intro hc
        rcases hc with ⟨m', hm', _⟩ | h2
        · exact absurd hm' (by simp)
        · exact absurd h2 hge
  · simp only [computeMMItoUse]
    split
    · rename_i hlt
      exact ⟨fun _ => Or.inl ⟨m, rfl, hlt⟩, fun _ => rfl⟩
    · rename_i hge
      split
      · rename_i hlt2
        exact ⟨fun _ => Or.inr hlt2, fun _ => rfl⟩
      · rename_i hge2
        constructor
        · intro hc
          exact absurd hc.symm hne
        · intro hc
          rcases hc with ⟨m', hm', hlt'⟩ | h2
          · injection hm' with hm'
            exact absurd (by rw [hm']; exact hlt') hge
          · exact absurd h2 hge2

/-- Witness for C1's amended theorem at the counterexample configuration:
with ANSS magnitude absent and initial magnitude 4 below the boundary 5,
the single threshold equals the small-event MMI 3. -/
theorem parseEventDisplay_single_threshold_witness :
    computeMMItoUse ⟨5, 3, 4⟩ none 4 = 3 :=
  (parseEventDisplay_single_threshold ⟨5, 3, 4⟩
      ⟨none, 4, 6, 6, [(3, "p")], [(4, "q"), (3, "r")], []⟩
      (by decide)).2.mpr (Or.inr (by norm_num))

/-! ## PyEventImage.get_alert_circle_params (lines 57-79)

```
radii_show: List[float] = [0.0, 10.0, 20.0, 30.0]
if float(init_sa_mag) < 6.0:
    radii_show = [0.0, 10.0, 20.0]
alert_t_radii: Dict[float, float] = dict.fromkeys(radii_show, 0.0)
for circle_radii_m in radii_show:
    if ((init_sa_to_anss_dt + circle_radii_m) * s_wave_velocity) > anss_depth:
        alert_t_radii[circle_radii_m] = (
            math.sqrt(((init_sa_to_anss_dt + circle_radii_m) * s_wave_velocity)**2 - anss_depth**2) * 1000
        )
    else:
        alert_t_radii[circle_radii_m] = 0.0
return alert_t_radii
```

The returned radius `sqrt(e) * 1000` is irrational in general, so the
embedding carries the exact *squared* radius in m², `e * 10^6` (and `0`
for the degenerate branch, whose radius is `0.0`).  Statements about the
integer rounding or truncation of the real radius are expressed as exact
rational inequalities on the square, which characterise them precisely
since the real square root is strictly monotone on nonnegatives. -/

/-- `PyEventImage.get_alert_circle_params`, with the squared radius (m²)
as second component. -/
def get_alert_circle_params (init_sa_mag init_sa_to_anss_dt
    s_wave_velocity anss_depth : ℚ) : List (ℚ × ℚ) :=
  let radii_show : List ℚ :=
    if init_sa_mag < 6 then [0, 10, 20] else [0, 10, 20, 30]
  radii_show.map (fun t =>
    (t,
      if anss_depth < (init_sa_to_anss_dt + t) * s_wave_velocity then
        (((init_sa_to_anss_dt + t) * s_wave_velocity) ^ 2 - anss_depth ^ 2)
          * 1000000
      else 0))

/-- The real radius `sqrt sq` (meters) rounds to the nearest integer `r`:
`(r - 1/2)² ≤ sq < (r + 1/2)²` (and `0 ≤ sq < 1/4` for `r = 0`). -/
def sqrtRoundsTo (sq : ℚ) (r : ℕ) : Prop :=
  (if r = 0 then (0 : ℚ) else ((2 * (r : ℚ) - 1) / 2) ^ 2) ≤ sq ∧
    sq < ((2 * (r : ℚ) + 1) / 2) ^ 2

/-- The real radius `sqrt sq` (meters) truncates (as Python `int()`) to
`r`: `r² ≤ sq < (r + 1)²`. -/
def sqrtTruncatesTo (sq : ℚ) (r : ℕ) : Prop :=
  ((r : ℚ)) ^ 2 ≤ sq ∧ sq < ((r : ℚ) + 1) ^ 2

/-- Counterexample to C8 as stated: at magnitude 5.3, dt 7.971 s, velocity
3.55 km/s, depth 27.77 km, the 20.0 s radius is ≈95334.84 m, which rounds
to the nearest integer meter as 95335, not the claimed 95334 (the claimed
value is the `int()` truncation used by the repository's own unit test);
likewise the 10.0 s radius ≈57435.97 m rounds to 57436, not 57435. -/
theorem get_alert_circle_params_not_nearest :
    get_alert_circle_params (53/10) (7971/1000) (71/20) (2777/100) =
      [(0, (((7971/1000 + 0) * (71/20)) ^ 2 - (2777/100) ^ 2) * 1000000),
       (10, (((7971/1000 + 10) * (71/20)) ^ 2 - (2777/100) ^ 2) * 1000000),
       (20, (((7971/1000 + 20) * (71/20)) ^ 2 - (2777/100) ^ 2) * 1000000)] ∧
    ¬ sqrtRoundsTo
        ((((7971/1000 + 20) * (71/20)) ^ 2 - (2777/100) ^ 2) * 1000000) 95334 ∧
    sqrtRoundsTo
        ((((7971/1000 + 20) * (71/20)) ^ 2 - (2777/100) ^ 2) * 1000000) 95335 ∧
    ¬ sqrtRoundsTo
        ((((7971/1000 + 10) * (71/20)) ^ 2 - (2777/100) ^ 2) * 1000000) 57435 ∧
    sqrtRoundsTo
        ((((7971/1000 + 10) * (71/20)) ^ 2 - (2777/100) ^ 2) * 1000000) 57436 := by
  refine ⟨?_, ?_, ?_, ?_, ?_⟩
  · norm_num [get_alert_circle_params]
  all_goals
    rw [sqrtRoundsTo]
    norm_num

/-- C8 (amended): for initial-alert magnitude strictly below 6.0 the
alert-circle mapping has exactly the elapsed-time keys 0.0, 10.0, 20.0 (no
30-second bin); and for magnitude 5.3, time delta 7.971 s, wave velocity
3.55 km/s, depth 27.77 km, the radii truncated to integer meters (Python
`int()`, as in the repository's unit test) are 5436 at 0.0 s, 57435 at
10.0 s and 95334 at 20.0 s. -/
theorem get_alert_circle_params_spec (init_sa_mag init_sa_to_anss_dt
    s_wave_velocity anss_depth : ℚ) (h : init_sa_mag < 6) :
    (get_alert_circle_params init_sa_mag init_sa_to_anss_dt s_wave_velocity
        anss_depth).map Prod.fst = [0, 10, 20] ∧
    get_alert_circle_params (53/10) (7971/1000) (71/20) (2777/100) =
      [(0, (((7971/1000 + 0) * (71/20)) ^ 2 - (2777/100) ^ 2) * 1000000),
       (10, (((7971/1000 + 10) * (71/20)) ^ 2 - (2777/100) ^ 2) * 1000000),
       (20, (((7971/1000 + 20) * (71/20)) ^ 2 - (2777/100) ^ 2) * 1000000)] ∧
    sqrtTruncatesTo
      ((((7971/1000 + 0) * (71/20)) ^ 2 - (2777/100) ^ 2) * 1000000) 5436 ∧
    sqrtTruncatesTo
      ((((7971/1000 + 10) * (71/20)) ^ 2 - (2777/100) ^ 2) * 1000000) 57435 ∧
    sqrtTruncatesTo
      ((((7971/1000 + 20) * (71/20)) ^ 2 - (2777/100) ^ 2) * 1000000) 95334 := by
  refine ⟨?_, ?_, ?_, ?_, ?_⟩
  · rw [get_alert_circle_params]
    simp only [if_pos h, List.map_map]
    rfl
  · norm_num [get_alert_circle_params]
  all_goals
    rw [sqrtTruncatesTo]
    norm_num

/-- Witness for C8's amended theorem at the test inputs (magnitude 5.3 is
below 6.0): the key list is exactly [0, 10, 20]. -/
theorem get_alert_circle_params_spec_witness :
    (get_alert_circle_params (53/10) (7971/1000) (71/20)
      (2777/100)).map Prod.fst = [0, 10, 20] :=
  (get_alert_circle_params_spec (53/10) (7971/1000) (71/20) (2777/100)
    (by norm_num)).1

/-! ## PyCities.getCityList (lines 29-86) and the promotion rule
(ShakeAlertParser.finalizeShakeAlertValues, lines 231-238)

The selection loop:

```
nearest_cities = [];  distances = []
for _ in categories:
    nearest_cities.append(None);  distances.append(1.0e6)
for city, values in self.cities.items():
    index = 0
    for category, nearest_city, distance in zip(categories, nearest_cities, distances):
        if category == values['category']:
            dist_to_city = self.distanceBetween(lat, lon, values['lat'], values['lon'])
            if dist_to_city < distance:
                exclude = False
                for i in range(index):
                    if categories[i] == category and nearest_cities[i] == city:
                        exclude = True; break
                if not exclude:
                    nearest_cities[index] = city;  distances[index] = dist_to_city
        index += 1
```

then a result dict is built per slot (`slant_dist`, S-wave travel time with
the 3.55 km/s constant, `max(s_tt - time_delta, 0)`, bearing octant), keyed
by city name; `self.cities[None]` on an unfilled slot raises `KeyError`.

The real-valued library functions (haversine `distanceBetween`,
`math.sqrt`, the `atan2`-based `calculate_initial_compass_bearing`) have no
exact rational counterpart; they never influence which branch of the
control flow under verification is taken, so they are abstracted as the
function parameters in `RealFns` and the theorems below hold for every
choice of them. -/

/-- A catalog entry (`self.cities[name]`): lat, lon, population,
category. -/
structure CityVal where
  lat : ℚ
  lon : ℚ
  pop : ℤ
  category : String
deriving DecidableEq, Repr

/-- One value of the result dict of `getCityList` (line 81). -/
structure CityEntry where
  lat : ℚ
  lon : ℚ
  category : String
  distance : ℚ
  time : ℚ
  bearing : String
deriving DecidableEq, Repr

/-- Rational stand-ins for the real-valued geometry library calls. -/
structure RealFns where
  distanceBetween : ℚ → ℚ → ℚ → ℚ → ℚ
  sqrtQ : ℚ → ℚ
  bearingQ : ℚ → ℚ → ℚ → ℚ → ℚ

/-- Python `int()` on a rational: truncation toward zero. -/
def ratTrunc (q : ℚ) : ℤ := if 0 ≤ q then ⌊q⌋ else ⌈q⌉

/-- `PyCities.get_compass_direction` (lines 89-98): 45°-wide octant bins
offset by 22.5°; `bearings[index]` with Python list-index semantics
(negative indices within range wrap once, anything else raises
`IndexError`). -/
def get_compass_direction (compass_bearing_degrees : ℚ) : Except String String :=
  let bearings := ["NE", "E", "SE", "S", "SW", "W", "NW", "N"]
  let index0 := compass_bearing_degrees - 45/2
  let index1 := if index0 < 0 then index0 + 360 else index0
  let i : ℤ := ratTrunc (index1 / 45)
  if 0 ≤ i ∧ i < 8 then .ok (bearings.getD i.toNat "")
  else if -8 ≤ i ∧ i < 0 then .ok (bearings.getD (i + 8).toNat "")
  else .error "IndexError: list index out of range"

/-- One city's inner pass over the (category, nearest-name, distance) slot
triples.  `done` carries the slots already processed in this pass (whose
updates are visible to the exclusion scan `for i in range(index)`). -/
def cityPassAux (fns : RealFns) (lat lon : ℚ) (city : String) (v : CityVal) :
    List (String × Option String × ℚ) → List (String × Option String × ℚ) →
      List (String × Option String × ℚ)
  | _, [] => []
  | done, (category, nearest_city, distance) :: rest =>
    let upd :=
      if category = v.category then
        let dist_to_city := fns.distanceBetween lat lon v.lat v.lon
        if dist_to_city < distance then
          if done.any (fun q => decide (q.1 = category ∧ q.2.1 = some city))
          then (category, nearest_city, distance)
          else (category, some city, dist_to_city)
        else (category, nearest_city, distance)
      else (category, nearest_city, distance)
    upd :: cityPassAux fns lat lon city v (done ++ [upd]) rest

/-- The full selection loop: fold each catalog city over the slot list
(initially all `(None, 1.0e6)`). -/
def selectSlots (fns : RealFns) (lat lon : ℚ)
    (cities : List (String × CityVal)) (categories : List String) :
    List (String × Option String × ℚ) :=
  cities.foldl (fun slots cv => cityPassAux fns lat lon cv.1 cv.2 [] slots)
    (categories.map (fun c => (c, none, (1000000 : ℚ))))

/-- The result-dict-building loop of `getCityList` (lines 67-86);
`.error` models the `KeyError` on an unfilled (`None`) slot and the
`IndexError` reachable inside `get_compass_direction`. -/
def buildCityEntries (fns : RealFns) (cities : List (String × CityVal))
    (lat lon depth time_delta : ℚ) :
    List (String × Option String × ℚ) → List (String × CityEntry) →
      Except String (List (String × CityEntry))
  | [], acc => .ok acc
  | (category, nearest_city, distance) :: rest, acc =>
    let slant_dist := fns.sqrtQ (depth ^ 2 + distance ^ 2)
    let s_tt := slant_dist / (71/20)
    let city_time_delta := max (s_tt - time_delta) 0
    match nearest_city with
    | none => .error "KeyError: None"
    | some n =>
      match cities.lookup n with
      | none => .error "KeyError"
      | some v =>
        match get_compass_direction (fns.bearingQ v.lat v.lon lat lon) with
        | .error e => .error e
        | .ok compass_bearing =>
          buildCityEntries fns cities lat lon depth time_delta rest
            (dictInsert n
              ⟨v.lat, v.lon, category, distance, city_time_delta,
                compass_bearing⟩ acc)

/-- `PyCities.getCityList`. -/
def getCityList (fns : RealFns) (cities : List (String × CityVal))
    (lat lon depth : ℚ) (categories : List String) (time_delta : ℚ) :
    Except String (List (String × CityEntry)) :=
  buildCityEntries fns cities lat lon depth time_delta
    (selectSlots fns lat lon cities categories) []

/-- The promotion step of `ShakeAlertParser.finalizeShakeAlertValues`
(lines 231-238):

```
closest_cities = cities.getCityList(lat, lon, depth, types, delta)
c_city = list(closest_cities.keys())[0]
b_city = list(closest_cities.keys())[1]
if closest_cities[c_city]['distance'] > closest_cities[b_city]['distance']:
    closest_cities = cities.getCityList(lat, lon, depth, ["B", "B", "B", "A"], delta)
```
-/
def cityPromotion (fns : RealFns) (cities : List (String × CityVal))
    (lat lon depth time_delta : ℚ) :
    Except String (List (String × CityEntry)) :=
  match getCityList fns cities lat lon depth ["C", "B", "B", "A"] time_delta with
  | .error e => .error e
  | .ok closest_cities =>
    match closest_cities with
    | k0 :: k1 :: _ =>
      match closest_cities.lookup k0.1, closest_cities.lookup k1.1 with
      | some ec, some eb =>
        if ec.distance > eb.distance then
          getCityList fns cities lat lon depth ["B", "B", "B", "A"] time_delta
        else .ok closest_cities
      | _, _ => .error "KeyError"
    | _ => .error "IndexError: list index out of range"

/-- Concrete stand-ins for the real-valued calls, used by the concrete
instantiations below: taxicab distance, a `sqrt` stub, a constant
bearing. -/
def testFns : RealFns :=
  ⟨fun a b c d => |a - c| + |b - d|, fun _ => 0, fun _ _ _ _ => 0⟩

/-- A concrete city catalog: one C city (farthest), three B cities
(nearest), one A city. -/
def testCatalog : List (String × CityVal) :=
  [("Cville", ⟨10, 0, 1, "C"⟩), ("B1", ⟨1, 0, 1, "B"⟩), ("B2", ⟨2, 0, 1, "B"⟩),
   ("B3", ⟨4, 0, 1, "B"⟩), ("Atown", ⟨3, 0, 1, "A"⟩)]

/-- C2: when the first `getCityList([C,B,B,A])` run succeeds and its second
returned slot (the first B, at dict position 1) is strictly closer than its
first returned slot (the C, at dict position 0), `cityPromotion` re-runs
the entire selection exactly once with `[B,B,B,A]` and returns that re-run's
result unchanged; otherwise it returns the first run's result unchanged —
in particular no comparison or promotion beyond slots 0 and 1 is ever
performed.  (`dictInsert` keeps first-insertion order, so with distinct
slot names position 0 holds the C-slot city and position 1 the first
B-slot city.) -/
theorem cityPromotion_spec (fns : RealFns) (cities : List (String × CityVal))
    (lat lon depth time_delta : ℚ) (n0 n1 : String) (e0 e1 : CityEntry)
    (rest : List (String × CityEntry))
    (hok : getCityList fns cities lat lon depth ["C", "B", "B", "A"] time_delta =
      .ok ((n0, e0) :: (n1, e1) :: rest))
    (hne : n0 ≠ n1) :
    cityPromotion fns cities lat lon depth time_delta =
      if e1.distance < e0.distance
      then getCityList fns cities lat lon depth ["B", "B", "B", "A"] time_delta
      else .ok ((n0, e0) :: (n1, e1) :: rest) := by
  have h0 : ((n0, e0) :: (n1, e1) :: rest).lookup n0 = some e0 := by
    simp [List.lookup]
  have h1 : ((n0, e0) :: (n1, e1) :: rest).lookup n1 = some e1 := by
    simp [List.lookup, beq_false_of_ne (Ne.symm hne)]
  rw [cityPromotion, hok]
  show (match ((n0, e0) :: (n1, e1) :: rest).lookup n0,
      ((n0, e0) :: (n1, e1) :: rest).lookup n1 with
    | some ec, some eb =>
      if ec.distance > eb.distance then
        getCityList fns cities lat lon depth ["B", "B", "B", "A"] time_delta
      else .ok ((n0, e0) :: (n1, e1) :: rest)
    | _, _ => .error "KeyError") = _
  rw [h0, h1]

/-- Witness for C2: on `testCatalog` the first B (distance 1) beats the C
(distance 10), so the promotion re-runs with `[B,B,B,A]`. -/
theorem cityPromotion_spec_witness :
    cityPromotion testFns testCatalog 0 0 0 0 =
      getCityList testFns testCatalog 0 0 0 ["B", "B", "B", "A"] 0 := by
  have hok : getCityList testFns testCatalog 0 0 0 ["C", "B", "B", "A"] 0 =
      .ok [("Cville", ⟨10, 0, "C", 10, 0, "N"⟩), ("B1", ⟨1, 0, "B", 1, 0, "N"⟩),
        ("B2", ⟨2, 0, "B", 2, 0, "N"⟩), ("Atown", ⟨3, 0, "A", 3, 0, "N"⟩)] := by
    have hsel : selectSlots testFns 0 0 testCatalog ["C", "B", "B", "A"] =
        [("C", some "Cville", 10), ("B", some "B1", 1), ("B", some "B2", 2),
         ("A", some "Atown", 3)] := by
      norm_num +decide [selectSlots, cityPassAux, testFns, testCatalog]
    have hgcd : get_compass_direction 0 = .ok "N" := by
      norm_num +decide [get_compass_direction, ratTrunc]
    have hl0 : testCatalog.lookup "Cville" = some ⟨10, 0, 1, "C"⟩ := by decide
    have hl1 : testCatalog.lookup "B1" = some ⟨1, 0, 1, "B"⟩ := by decide
    have hl2 : testCatalog.lookup "B2" = some ⟨2, 0, 1, "B"⟩ := by decide
    have hl3 : testCatalog.lookup "Atown" = some ⟨3, 0, 1, "A"⟩ := by decide
    rw [getCityList, hsel]
    norm_num +decide [buildCityEntries, dictInsert, testFns, hl0, hl1, hl2,
      hl3, hgcd]
  have h := cityPromotion_spec testFns testCatalog 0 0 0 0 "Cville" "B1"
    ⟨10, 0, "C", 10, 0, "N"⟩ ⟨1, 0, "B", 1, 0, "N"⟩
    [("B2", ⟨2, 0, "B", 2, 0, "N"⟩), ("Atown", ⟨3, 0, "A", 3, 0, "N"⟩)]
    hok (by decide)
  rw [h, if_pos (by norm_num : (1 : ℚ) < 10)]

/-- Invariant of a selection slot: a filled slot names a catalog city whose
category is the slot's requested category. -/
def SlotInv (cities : List (String × CityVal)) (s : String × Option String × ℚ) :
    Prop :=
  ∀ n, s.2.1 = some n → ∃ v, (n, v) ∈ cities ∧ v.category = s.1

/-- One city's pass preserves the slot invariant. -/
theorem cityPassAux_inv (fns : RealFns) (lat lon : ℚ) (city : String)
    (v : CityVal) (cities : List (String × CityVal))
    (hcv : (city, v) ∈ cities) :
    ∀ (slots done : List (String × Option String × ℚ)),
      (∀ s ∈ slots, SlotInv cities s) →
      ∀ s ∈ cityPassAux fns lat lon city v done slots, SlotInv cities s := by
  intro slots
  induction slots with
  | nil =>
    intro done _ s hs
    simp [cityPassAux] at hs
  | cons hd rest ih =>
    obtain ⟨c, nm, d⟩ := hd
    intro done hinv s hs
    rw [cityPassAux] at hs
    rcases List.mem_cons.mp hs with hupd | hrec
    · subst hupd
      dsimp only
      split
      · rename_i hcat
        split
        · split
          · exact hinv _ (List.mem_cons_self _ _)
          · intro n hn
            simp only [Option.some_inj] at hn
            exact ⟨v, hn ▸ hcv, hcat.symm⟩
        · exact hinv _ (List.mem_cons_self _ _)
      · exact hinv _ (List.mem_cons_self _ _)
    · exact ih _ (fun t ht => hinv t (List.mem_cons_of_mem _ ht)) s hrec

/-- One city's pass does not change the requested-category components. -/
theorem cityPassAux_categories (fns : RealFns) (lat lon : ℚ) (city : String)
    (v : CityVal) :
    ∀ (slots done : List (String × Option String × ℚ)),
      (cityPassAux fns lat lon city v done slots).map (fun s => s.1) =
        slots.map (fun s => s.1) := by
  intro slots
  induction slots with
  | nil => intro done; rfl
  | cons hd rest ih =>
    obtain ⟨c, nm, d⟩ := hd
    intro done
    rw [cityPassAux]
    simp only [List.map_cons, ih]
    congr 1
    split
    · split
      · split <;> rfl
      · rfl
    · rfl

/-- The full selection preserves the slot invariant, starting from the
all-`None` slots. -/
theorem selectSlots_inv (fns : RealFns) (lat lon : ℚ)
    (cities : List (String × CityVal)) (categories : List String) :
    ∀ s ∈ selectSlots fns lat lon cities categories, SlotInv cities s := by
  rw [selectSlots]
  have H : ∀ (l : List (String × CityVal)), (∀ p ∈ l, p ∈ cities) →
      ∀ (slots : List (String × Option String × ℚ)),
        (∀ s ∈ slots, SlotInv cities s) →
        ∀ s ∈ l.foldl (fun sl cv => cityPassAux fns lat lon cv.1 cv.2 [] sl)
          slots, SlotInv cities s := by
    intro l
    induction l with
    | nil => intro _ slots hinv s hs; exact hinv s hs
    | cons p rest ih =>
      intro hsub slots hinv s hs
      rw [List.foldl_cons] at hs
      exact ih (fun q hq => hsub q (List.mem_cons_of_mem _ hq)) _
        (cityPassAux_inv fns lat lon p.1 p.2 cities
          (hsub p (List.mem_cons_self _ _)) slots [] hinv) s hs
  refine H cities (fun p hp => hp) _ ?_
  intro s hs n hn
  obtain ⟨c, _, hc⟩ := List.mem_map.mp hs
  rw [← hc] at hn
  simp at hn

/-- The selection returns one slot per requested category, in order. -/
theorem selectSlots_categories (fns : RealFns) (lat lon : ℚ)
    (cities : List (String × CityVal)) (categories : List String) :
    (selectSlots fns lat lon cities categories).map (fun s => s.1) =
      categories := by
  rw [selectSlots]
  have H : ∀ (l : List (String × CityVal))
      (slots : List (String × Option String × ℚ)),
      (l.foldl (fun sl cv => cityPassAux fns lat lon cv.1 cv.2 [] sl)
        slots).map (fun s => s.1) = slots.map (fun s => s.1) := by
    intro l
    induction l with
    | nil => intro slots; rfl
    | cons p rest ih =>
      intro slots
      rw [List.foldl_cons, ih, cityPassAux_categories]
  rw [H]
  induction categories with
  | nil => rfl
  | cons c t ih => simpa using ih

/-- `buildCityEntries` fails whenever some slot is unfilled (`None`): the
slots are processed in order and the `self.cities[None]` lookup raises. -/
theorem buildCityEntries_error (fns : RealFns)
    (cities : List (String × CityVal)) (lat lon depth time_delta : ℚ) :
    ∀ (slots : List (String × Option String × ℚ))
      (acc : List (String × CityEntry)),
      (∃ s ∈ slots, s.2.1 = none) →
      ∃ e, buildCityEntries fns cities lat lon depth time_delta slots acc =
        .error e := by
  intro slots
  induction slots with
  | nil =>
    intro acc h
    simp at h
  | cons hd rest ih =>
    obtain ⟨c, nm, d⟩ := hd
    intro acc h
    rw [buildCityEntries.eq_def]
    dsimp only
    cases nm with
    | none => exact ⟨"KeyError: None", rfl⟩
    | some n =>
      have hrest : ∃ s ∈ rest, s.2.1 = none := by
        obtain ⟨s, hs, hnone⟩ := h
        rcases List.mem_cons.mp hs with rfl | hs'
        · simp at hnone
        · exact ⟨s, hs', hnone⟩
      dsimp only
      cases cities.lookup n with
      | none => exact ⟨"KeyError", rfl⟩
      | some v =>
        dsimp only
        cases get_compass_direction (fns.bearingQ v.lat v.lon lat lon) with
        | error e => exact ⟨e, rfl⟩
        | ok compass_bearing => exact ih _ hrest

/-- C4 (amended): if some requested category has no matching catalog entry,
its slot keeps the `None` placeholder through the selection phase, and the
whole `getCityList` query then fails with an error (the result-building
loop's `self.cities[None]` lookup raises `KeyError`); no partial result
with the other slots populated is returned. -/
theorem getCityList_missing_category_fails (fns : RealFns)
    (cities : List (String × CityVal)) (lat lon depth time_delta : ℚ)
    (categories : List String)
    (h : ∃ c ∈ categories, ∀ p ∈ cities,
      (p : String × CityVal).2.category ≠ c) :
    ∃ e, getCityList fns cities lat lon depth categories time_delta =
      .error e := by
  obtain ⟨c, hc, hno⟩ := h
  have hmem : c ∈ (selectSlots fns lat lon cities categories).map
      (fun s => s.1) := by
    rw [selectSlots_categories]
    exact hc
  obtain ⟨s, hs, hsc⟩ := List.mem_map.mp hmem
  have hnone : s.2.1 = none := by
    cases hn : s.2.1 with
    | none => rfl
    | some n =>
      obtain ⟨v, hv, hvc⟩ := selectSlots_inv fns lat lon cities categories
        s hs n hn
      exact absurd (hvc.trans hsc) (hno (n, v) hv)
  exact buildCityEntries_error fns cities lat lon depth time_delta _ []
    ⟨s, hs, hnone⟩

/-- Counterexample to C4 as stated: a catalog holding only one C-category
city makes `getCityList([C,B,B,A])` raise `KeyError` (Python
`self.cities[None]`) — the whole query fails with an error instead of
returning a result with the other slots populated. -/
theorem getCityList_missing_category_counterexample :
    getCityList testFns [("Alpha", ⟨0, 0, 1, "C"⟩)] 0 0 0
      ["C", "B", "B", "A"] 0 = .error "KeyError: None" := by
  have hsel : selectSlots testFns 0 0 [("Alpha", ⟨0, 0, 1, "C"⟩)]
      ["C", "B", "B", "A"] =
      [("C", some "Alpha", 0), ("B", none, 1000000), ("B", none, 1000000),
       ("A", none, 1000000)] := by
    norm_num +decide [selectSlots, cityPassAux, testFns]
  have hgcd : get_compass_direction 0 = .ok "N" := by
    norm_num +decide [get_compass_direction, ratTrunc]
  have hl0 : ([("Alpha", (⟨0, 0, 1, "C"⟩ : CityVal))]).lookup "Alpha" =
      some ⟨0, 0, 1, "C"⟩ := by decide
  rw [getCityList, hsel]
  norm_num +decide [buildCityEntries, dictInsert, testFns, hl0, hgcd]

/-- Witness for C4's amended theorem: category "B" has no entry in the
one-city catalog, so the query errors. -/
theorem getCityList_missing_category_fails_witness :
    ∃ e, getCityList testFns [("Alpha", ⟨0, 0, 1, "C"⟩)] 0 0 0
      ["C", "B", "B", "A"] 0 = .error e :=
  getCityList_missing_category_fails testFns [("Alpha", ⟨0, 0, 1, "C"⟩)]
    0 0 0 0 ["C", "B", "B", "A"] ⟨"B", by decide, by decide⟩

/-! ## EQCalculations.getTimeDelta (lines 199-236)

```
if '.' not in alert_time:  alert_time = alert_time + ".000"
if '.' not in origin_time: origin_time = origin_time + ".000"
FMT1 = '%Y-%m-%dT%H:%M:%S.%f'
FMT2 = '%Y-%m-%d %H:%M:%S.%f'
FMT3 = "%Y-%m-%d %H:%M:%S.%f (UTC)"
if "UTC" in alert_time:   atime = datetime.datetime.strptime(alert_time, FMT3)
elif "T" in alert_time:   atime = datetime.datetime.strptime(alert_time, FMT1)
elif " " in alert_time:   atime = datetime.datetime.strptime(alert_time, FMT2)
else: print('time is an adisaster')          # atime stays unbound
... (same dispatch for origin_time) ...
time_delta = (atime - otime).total_seconds()
return time_delta
```

Timestamps are handled as `List Char`.  `strptime` with these formats is
embedded as `parseDateTime`: `%Y` is exactly four digits; `%m`, `%d`, `%H`,
`%M`, `%S` are greedy one-or-two-digit fields whose values are range-checked
together with `datetime`'s own constructor validation (so e.g. month 13,
day 31 in April, hour 24 or second 60 are rejected — CPython rejects the
same strings, merely at a different stage); `%f` is one to six fraction
digits (greedy); a whitespace in the format matches a run of one or more
spaces; the full string must be consumed.  (Two documented simplifications
against CPython's `_strptime`: the literal `T` and `(UTC)` are matched
case-sensitively, and only the space character — not tabs — matches format
whitespace; both only affect inputs the surrounding substring dispatch
would misroute anyway.)  A failed parse (`ValueError`), and the unbound
`atime`/`otime` of the fall-through branch (`UnboundLocalError`), are both
`none`.  `total_seconds()` of the difference is reproduced exactly by
mapping each datetime to rational seconds on a proleptic-Gregorian day
count (`civilDays`). -/

/-- Numeric value of a digit character. -/
def digitVal (c : Char) : ℕ := c.toNat - 48

/-- Exactly four digits (`%Y`). -/
def take4 : List Char → Option (ℕ × List Char)
  | a :: b :: c :: d :: rest =>
    if a.isDigit && b.isDigit && c.isDigit && d.isDigit then
      some (((digitVal a * 10 + digitVal b) * 10 + digitVal c) * 10
        + digitVal d, rest)
    else none
  | _ => none

/-- One or two digits, greedy (`%m`, `%d`, `%H`, `%M`, `%S`). -/
def take2 : List Char → Option (ℕ × List Char)
  | [] => none
  | a :: rest =>
    if a.isDigit then
      match rest with
      | b :: rest' =>
        if b.isDigit then some (digitVal a * 10 + digitVal b, rest')
        else some (digitVal a, b :: rest')
      | [] => some (digitVal a, [])
    else none

/-- Up to `n` further fraction digits, greedy, accumulating onto `f` with
scale `s`. -/
def takeFracAux : ℕ → ℚ → ℚ → List Char → ℚ × List Char
  | 0, f, _, l => (f, l)
  | _ + 1, f, _, [] => (f, [])
  | n + 1, f, s, c :: rest =>
    if c.isDigit then takeFracAux n (f + digitVal c * s) (s / 10) rest
    else (f, c :: rest)

/-- One to six fraction digits (`%f`), as a rational in `[0, 1)`. -/
def takeFrac : List Char → Option (ℚ × List Char)
  | [] => none
  | c :: rest =>
    if c.isDigit then some (takeFracAux 5 ((digitVal c : ℚ) / 10) (1/100) rest)
    else none

/-- A single expected literal character. -/
def expectCh (ch : Char) : List Char → Option (List Char)
  | [] => none
  | c :: rest => if c = ch then some rest else none

/-- Drop a run of spaces. -/
def dropSpaces : List Char → List Char
  | [] => []
  | c :: rest => if c = ' ' then dropSpaces rest else c :: rest

/-- One or more spaces (format whitespace). -/
def expectSpaces : List Char → Option (List Char)
  | [] => none
  | c :: rest => if c = ' ' then some (dropSpaces rest) else none

/-- The components of a parsed `datetime`. -/
structure PyDateTime where
  year : ℕ
  month : ℕ
  day : ℕ
  hour : ℕ
  minute : ℕ
  second : ℕ
  frac : ℚ
deriving DecidableEq, Repr

/-- Gregorian leap year. -/
def isLeap (y : ℕ) : Bool := (y % 4 = 0 && y % 100 ≠ 0) || y % 400 = 0

/-- Number of days in a month. -/
def daysInMonth (y m : ℕ) : ℕ :=
  if m = 2 then (if isLeap y then 29 else 28)
  else if m = 4 ∨ m = 6 ∨ m = 9 ∨ m = 11 then 30 else 31

/-- The validity conditions that CPython enforces across the `_strptime`
regex and the `datetime` constructor, combined. -/
def validDT (y mo d h mi s : ℕ) : Bool :=
  1 ≤ y && 1 ≤ mo && mo ≤ 12 && 1 ≤ d && d ≤ daysInMonth y mo &&
    h ≤ 23 && mi ≤ 59 && s ≤ 59

/-- `strptime` for the three formats in use: `sepT` selects the `'T'` date
and time separator (otherwise whitespace), `utcSuf` requires the literal
`" (UTC)"` suffix.  The whole input must be consumed. -/
def parseDateTime (sepT utcSuf : Bool) (s : List Char) : Option PyDateTime :=
  match take4 s with
  | none => none
  | some (y, r1) =>
    match expectCh '-' r1 with
    | none => none
    | some r2 =>
      match take2 r2 with
      | none => none
      | some (mo, r3) =>
        match expectCh '-' r3 with
        | none => none
        | some r4 =>
          match take2 r4 with
          | none => none
          | some (d, r5) =>
            match (if sepT then expectCh 'T' r5 else expectSpaces r5) with
            | none => none
            | some r6 =>
              match take2 r6 with
              | none => none
              | some (h, r7) =>
                match expectCh ':' r7 with
                | none => none
                | some r8 =>
                  match take2 r8 with
                  | none => none
                  | some (mi, r9) =>
                    match expectCh ':' r9 with
                    | none => none
                    | some r10 =>
                      match take2 r10 with
                      | none => none
                      | some (sec, r11) =>
                        match expectCh '.' r11 with
                        | none => none
                        | some r12 =>
                          match takeFrac r12 with
                          | none => none
                          | some (f, r13) =>
                            match (if utcSuf then
                                (expectSpaces r13).bind (fun ra =>
                                  (expectCh '(' ra).bind (fun rb =>
                                    (expectCh 'U' rb).bind (fun rc =>
                                      (expectCh 'T' rc).bind (fun rd =>
                                        (expectCh 'C' rd).bind
                                          (expectCh ')')))))
                              else some r13) with
                            | none => none
                            | some r14 =>
                              if r14 = [] ∧ validDT y mo d h mi sec then
                                some ⟨y, mo, d, h, mi, sec, f⟩
                              else none

/-- Days of a proleptic-Gregorian civil date counted from the era origin
(the standard days-from-civil formula, shifted to a March-based year; all
divisions are on nonnegative values, so `ℕ` division is exact). -/
def civilDays (y m d : ℕ) : ℕ :=
  let yy := if m ≤ 2 then y - 1 else y
  let mp := if m ≤ 2 then m + 9 else m - 3
  let doy := (153 * mp + 2) / 5 + (d - 1)
  365 * yy + yy / 4 - yy / 100 + yy / 400 + doy

/-- A parsed datetime as rational seconds (`total_seconds` of differences
is exact on these). -/
def toSecs (dt : PyDateTime) : ℚ :=
  86400 * (civilDays dt.year dt.month dt.day : ℚ) + 3600 * dt.hour
    + 60 * dt.minute + dt.second + dt.frac

/-- `startsWith needle hay`: `hay` begins with `needle`. -/
def startsWith : List Char → List Char → Bool
  | [], _ => true
  | _ :: _, [] => false
  | a :: as_, b :: bs => a = b && startsWith as_ bs

/-- Python's `in` on strings: substring containment. -/
def containsSub (needle : List Char) : List Char → Bool
  | [] => startsWith needle []
  | c :: rest => startsWith needle (c :: rest) || containsSub needle rest

/-- The `".000"` normalization applied to inputs without a `'.'`
(lines 200-205). -/
def normalizeTs (s : List Char) : List Char :=
  if '.' ∈ s then s else s ++ ['.', '0', '0', '0']

/-- The substring-based format dispatch of `getTimeDelta`
(lines 212-230); the fall-through branch leaves the variable unbound
(`none`). -/
def dispatchParse (s : List Char) : Option PyDateTime :=
  if containsSub ['U', 'T', 'C'] s then parseDateTime false true s
  else if 'T' ∈ s then parseDateTime true false s
  else if ' ' ∈ s then parseDateTime false false s
  else none

/-- `EQCalculations.getTimeDelta`. -/
def getTimeDelta (alert_time origin_time : List Char) : Option ℚ :=
  match dispatchParse (normalizeTs alert_time),
      dispatchParse (normalizeTs origin_time) with
  | some atime, some otime => some (toSecs atime - toSecs otime)
  | _, _ => none

/-- A timestamp string matches one of the three recognized encodings. -/
def matchesThree (s : List Char) : Bool :=
  (parseDateTime true false s).isSome || (parseDateTime false false s).isSome
    || (parseDateTime false true s).isSome

/-- `take4` consumes four digits. -/
theorem take4_decomp {s : List Char} {v : ℕ} {r : List Char}
    (h : take4 s = some (v, r)) :
    ∃ pre, s = pre ++ r ∧ pre ≠ [] ∧ ∀ c ∈ pre, c.isDigit = true := by
  match s with
  | [] => simp [take4] at h
  | [a] => simp [take4] at h
  | [a, b] => simp [take4] at h
  | [a, b, c] => simp [take4] at h
  | a :: b :: c :: d :: rest =>
    rw [take4] at h
    split at h
    · rename_i hd
      simp only [Bool.and_eq_true] at hd
      obtain ⟨⟨⟨ha, hb⟩, hc⟩, hdd⟩ := hd
      injection h with h
      injection h with _ hr
      subst hr
      refine ⟨[a, b, c, d], rfl, by simp, ?_⟩
      intro x hx
      simp only [List.mem_cons, List.not_mem_nil, or_false] at hx
      rcases hx with rfl | rfl | rfl | rfl <;> assumption
    · simp at h

/-- `take2` consumes one or two digits, greedily. -/
theorem take2_decomp {s : List Char} {v : ℕ} {r : List Char}
    (h : take2 s = some (v, r)) :
    ∃ pre, s = pre ++ r ∧ pre ≠ [] ∧ ∀ c ∈ pre, c.isDigit = true := by
  match s with
  | [] => simp [take2] at h
  | a :: rest =>
    rw [take2.eq_def] at h
    dsimp only at h
    split at h
    · rename_i ha
      match rest with
      | [] =>
        injection h with h
        injection h with _ hr
        subst hr
        refine ⟨[a], by simp, by simp, ?_⟩
        intro x hx
        simp only [List.mem_cons, List.not_mem_nil, or_false] at hx
        rcases hx with rfl
        exact ha
      | b :: rest' =>
        dsimp only at h
        split at h
        · rename_i hb
          injection h with h
          injection h with _ hr
          subst hr
          refine ⟨[a, b], rfl, by simp, ?_⟩
          intro x hx
          simp only [List.mem_cons, List.not_mem_nil, or_false] at hx
          rcases hx with rfl | rfl <;> assumption
        · injection h with h
          injection h with _ hr
          subst hr
          refine ⟨[a], rfl, by simp, ?_⟩
          intro x hx
          simp only [List.mem_cons, List.not_mem_nil, or_false] at hx
          rcases hx with rfl
          exact ha
    · simp at h

/-- `expectCh` consumes exactly the expected character. -/
theorem expectCh_decomp {ch : Char} {s r : List Char}
    (h : expectCh ch s = some r) : s = ch :: r := by
  match s with
  | [] => simp [expectCh] at h
  | c :: rest =>
    rw [expectCh] at h
    split at h
    · rename_i hc
      injection h with h
      rw [hc, h]
    · simp at h

/-- `dropSpaces` removes a (possibly empty) run of spaces. -/
theorem dropSpaces_decomp (l : List Char) :
    ∃ pre, l = pre ++ dropSpaces l ∧ ∀ c ∈ pre, c = ' ' := by
  induction l with
  | nil => exact ⟨[], rfl, by simp⟩
  | cons c rest ih =>
    rw [dropSpaces]
    split
    · rename_i hc
      obtain ⟨pre, hp, hsp⟩ := ih
      refine ⟨c :: pre, ?_, ?_⟩
      · rw [List.cons_append, ← hp]
      · intro x hx
        simp only [List.mem_cons] at hx
        rcases hx with rfl | hx
        · exact hc
        · exact hsp x hx
    · exact ⟨[], rfl, by simp⟩

/-- `expectSpaces` consumes a nonempty run of spaces. -/
theorem expectSpaces_decomp {s r : List Char} (h : expectSpaces s = some r) :
    ∃ pre, s = pre ++ r ∧ pre ≠ [] ∧ ∀ c ∈ pre, c = ' ' := by
  match s with
  | [] => simp [expectSpaces] at h
  | c :: rest =>
    rw [expectSpaces] at h
    split at h
    · rename_i hc
      injection h with h
      obtain ⟨pre, hp, hsp⟩ := dropSpaces_decomp rest
      refine ⟨c :: pre, ?_, by simp, ?_⟩
      · rw [List.cons_append, ← h, ← hp]
      · intro x hx
        simp only [List.mem_cons] at hx
        rcases hx with rfl | hx
        · exact hc
        · exact hsp x hx
    · simp at h

/-- `takeFracAux` consumes only digits. -/
theorem takeFracAux_decomp :
    ∀ (n : ℕ) (f sc : ℚ) (l : List Char),
      ∃ pre, l = pre ++ (takeFracAux n f sc l).2 ∧
        ∀ c ∈ pre, c.isDigit = true := by
  intro n
  induction n with
  | zero => intro f sc l; exact ⟨[], rfl, by simp⟩
  | succ n ih =>
    intro f sc l
    match l with
    | [] => exact ⟨[], by simp [takeFracAux], by simp⟩
    | c :: rest =>
      rw [takeFracAux]
      split
      · rename_i hc
        obtain ⟨pre, hp, hd⟩ := ih (f + digitVal c * sc) (sc / 10) rest
        refine ⟨c :: pre, ?_, ?_⟩
        · rw [List.cons_append, ← hp]
        · intro x hx
          simp only [List.mem_cons] at hx
          rcases hx with rfl | hx
          · exact hc
          · exact hd x hx
      · exact ⟨[], rfl, by simp⟩

/-- `takeFrac` consumes one to six digits, greedily. -/
theorem takeFrac_decomp {s : List Char} {v : ℚ} {r : List Char}
    (h : takeFrac s = some (v, r)) :
    ∃ pre, s = pre ++ r ∧ pre ≠ [] ∧ ∀ c ∈ pre, c.isDigit = true := by
  match s with
  | [] => simp [takeFrac] at h
  | c :: rest =>
    rw [takeFrac] at h
    split at h
    · rename_i hc
      injection h with h
      obtain ⟨pre, hp, hd⟩ := takeFracAux_decomp 5 ((digitVal c : ℚ) / 10)
        (1/100) rest
      rw [h] at hp
      refine ⟨c :: pre, ?_, by simp, ?_⟩
      · rw [List.cons_append, ← hp]
      · intro x hx
        simp only [List.mem_cons] at hx
        rcases hx with rfl | hx
        · exact hc
        · exact hd x hx
    · simp at h

/-- Structure of a string accepted by `parseDateTime`: digit fields
separated by the format literals, the configured date/time separator, and
the optional `" (UTC)"` suffix; nothing else. -/
theorem parseDateTime_decomp {sepT utcSuf : Bool} {s : List Char}
    {dt : PyDateTime} (h : parseDateTime sepT utcSuf s = some dt) :
    ∃ (d1 d2 d3 sep d4 d5 d6 fr su : List Char),
      s = d1 ++ '-' :: (d2 ++ '-' :: (d3 ++ (sep ++ (d4 ++ ':' ::
        (d5 ++ ':' :: (d6 ++ '.' :: (fr ++ su))))))) ∧
      (∀ c ∈ d1, c.isDigit = true) ∧ (∀ c ∈ d2, c.isDigit = true) ∧
      (∀ c ∈ d3, c.isDigit = true) ∧ (∀ c ∈ d4, c.isDigit = true) ∧
      (∀ c ∈ d5, c.isDigit = true) ∧ (∀ c ∈ d6, c.isDigit = true) ∧
      (∀ c ∈ fr, c.isDigit = true) ∧
      (sepT = true → sep = ['T']) ∧
      (sepT = false → sep ≠ [] ∧ ∀ c ∈ sep, c = ' ') ∧
      (utcSuf = true → ∃ sp, su = sp ++ ['(', 'U', 'T', 'C', ')'] ∧
        sp ≠ [] ∧ ∀ c ∈ sp, c = ' ') ∧
      (utcSuf = false → su = []) := by
  unfold parseDateTime at h
  split at h
  next => simp at h
  next y r1 h1 =>
  split at h
  next => simp at h
  next r2 h2 =>
  split at h
  next => simp at h
  next mo r3 h3 =>
  split at h
  next => simp at h
  next r4 h4 =>
  split at h
  next => simp at h
  next d r5 h5 =>
  split at h
  next => simp at h
  next r6 h6 =>
  split at h
  next => simp at h
  next hh r7 h7 =>
  split at h
  next => simp at h
  next r8 h8 =>
  split at h
  next => simp at h
  next mi r9 h9 =>
  split at h
  next => simp at h
  next r10 h10 =>
  split at h
  next => simp at h
  next sec r11 h11 =>
  split at h
  next => simp at h
  next r12 h12 =>
  split at h
  next => simp at h
  next f r13 h13 =>
  split at h
  next => simp at h
  next r14 h14 =>
  split at h
  case isFalse => simp at h
  case isTrue hcond =>
  obtain ⟨p1, hs1, _, hd1⟩ := take4_decomp h1
  have hr1 : r1 = '-' :: r2 := expectCh_decomp h2
  obtain ⟨p2, hs2, _, hd2⟩ := take2_decomp h3
  have hr3 : r3 = '-' :: r4 := expectCh_decomp h4
  obtain ⟨p3, hs3, _, hd3⟩ := take2_decomp h5
  have hsep : ∃ sep, r5 = sep ++ r6 ∧ (sepT = true → sep = ['T']) ∧
      (sepT = false → sep ≠ [] ∧ ∀ c ∈ sep, c = ' ') := by
    cases sepT with
    | true =>
      simp only [if_true] at h6
      have h5' := expectCh_decomp h6
      exact ⟨['T'], by rw [h5']; rfl, fun _ => rfl, by simp⟩
    | false =>
      simp only [Bool.false_eq_true, if_false] at h6
      obtain ⟨sp, hsp, hne, hsps⟩ := expectSpaces_decomp h6
      exact ⟨sp, hsp, by simp, fun _ => ⟨hne, hsps⟩⟩
  obtain ⟨sep, hr5, hsepT, hsepF⟩ := hsep
  obtain ⟨p4, hs4, _, hd4⟩ := take2_decomp h7
  have hr7 : r7 = ':' :: r8 := expectCh_decomp h8
  obtain ⟨p5, hs5, _, hd5⟩ := take2_decomp h9
  have hr9 : r9 = ':' :: r10 := expectCh_decomp h10
  obtain ⟨p6, hs6, _, hd6⟩ := take2_decomp h11
  have hr11 : r11 = '.' :: r12 := expectCh_decomp h12
  obtain ⟨fr, hs7, _, hd7⟩ := takeFrac_decomp h13
  have hr14 : r14 = [] := hcond.1
  have hsuf : (utcSuf = true → ∃ sp, r13 = sp ++ ['(', 'U', 'T', 'C', ')'] ∧
      sp ≠ [] ∧ ∀ c ∈ sp, c = ' ') ∧ (utcSuf = false → r13 = []) := by
    cases utcSuf with
    | false =>
      simp only [Bool.false_eq_true, if_false] at h14
      injection h14 with h14
      refine ⟨by simp, fun _ => ?_⟩
      rw [h14, hr14]
    | true =>
      simp only [if_true] at h14
      rw [Option.bind_eq_some] at h14
      obtain ⟨ra, hra, h14⟩ := h14
      rw [Option.bind_eq_some] at h14
      obtain ⟨rb, hrb, h14⟩ := h14
      rw [Option.bind_eq_some] at h14
      obtain ⟨rc, hrc, h14⟩ := h14
      rw [Option.bind_eq_some] at h14
      obtain ⟨rd, hrd, h14⟩ := h14
      rw [Option.bind_eq_some] at h14
      obtain ⟨re, hre, h14⟩ := h14
      obtain ⟨sp, hsp, hspne, hsps⟩ := expectSpaces_decomp hra
      have e1 : ra = '(' :: rb := expectCh_decomp hrb
      have e2 : rb = 'U' :: rc := expectCh_decomp hrc
      have e3 : rc = 'T' :: rd := expectCh_decomp hrd
      have e4 : rd = 'C' :: re := expectCh_decomp hre
      have e5 : re = ')' :: r14 := expectCh_decomp h14
      refine ⟨fun _ => ⟨sp, ?_, hspne, hsps⟩, by simp⟩
      rw [hsp, e1, e2, e3, e4, e5, hr14]
  obtain ⟨hsufT, hsufF⟩ := hsuf
  refine ⟨p1, p2, p3, sep, p4, p5, p6, fr, r13, ?_, hd1, hd2, hd3, hd4, hd5,
    hd6, hd7, hsepT, hsepF, hsufT, hsufF⟩
  rw [hs1, hr1, hs2, hr3, hs3, hr5, hs4, hr7, hs5, hr9, hs6, hr11, hs7]

/-- A prefix's characters are members. -/
theorem startsWith_mem {nd : List Char} :
    ∀ {l : List Char}, startsWith nd l = true → ∀ c ∈ nd, c ∈ l := by
  induction nd with
  | nil => intro l _ c hc; simp at hc
  | cons a as_ ih =>
    intro l h c hc
    match l, h with
    | b :: bs, h =>
      rw [startsWith] at h
      simp only [Bool.and_eq_true, decide_eq_true_eq] at h
      obtain ⟨rfl, h2⟩ := h
      rcases List.mem_cons.mp hc with rfl | hc'
      · exact List.mem_cons_self _ _
      · exact List.mem_cons_of_mem _ (ih h2 c hc')

/-- An empty haystack only starts with the empty needle. -/
theorem startsWith_nil {nd : List Char} (h : startsWith nd [] = true) :
    nd = [] := by
  cases nd with
  | nil => rfl
  | cons a as_ => simp [startsWith] at h

/-- A substring's characters are members. -/
theorem containsSub_mem {nd : List Char} :
    ∀ {l : List Char}, containsSub nd l = true → ∀ c ∈ nd, c ∈ l := by
  intro l
  induction l with
  | nil =>
    intro h c hc
    have h2 : startsWith nd [] = true := h
    rw [startsWith_nil h2] at hc
    simp at hc
  | cons b bs ih =>
    intro h c hc
    have h2 : (startsWith nd (b :: bs) || containsSub nd bs) = true := h
    rw [Bool.or_eq_true] at h2
    rcases h2 with h2 | h2
    · exact startsWith_mem h2 c hc
    · exact List.mem_cons_of_mem _ (ih h2 c hc)

/-- Substring containment extends to a longer haystack on the left. -/
theorem containsSub_append {nd t : List Char} (h : containsSub nd t = true) :
    ∀ {l : List Char}, containsSub nd (l ++ t) = true := by
  intro l
  induction l with
  | nil => exact h
  | cons c l' ih =>
    rw [List.cons_append]
    show (startsWith nd (c :: (l' ++ t)) || containsSub nd (l' ++ t)) = true
    rw [ih]
    simp

/-- Substring containment extends past one extra character. -/
theorem containsSub_cons {nd : List Char} {c : Char} {t : List Char}
    (h : containsSub nd t = true) : containsSub nd (c :: t) = true := by
  show (startsWith nd (c :: t) || containsSub nd t) = true
  rw [h]
  simp

/-- `startsWith` holds on an exact prefix. -/
theorem startsWith_self {nd : List Char} :
    ∀ {rest : List Char}, startsWith nd (nd ++ rest) = true := by
  induction nd with
  | nil => intro rest; rfl
  | cons a as_ ih =>
    intro rest
    rw [List.cons_append, startsWith]
    simp [ih]

set_option maxHeartbeats 1000000 in
/-- The character class accepted by `parseDateTime`. -/
theorem parseDateTime_mem_class {sepT utcSuf : Bool} {s : List Char}
    {dt : PyDateTime} (h : parseDateTime sepT utcSuf s = some dt) {c : Char}
    (hc : c ∈ s) :
    c.isDigit = true ∨ c = '-' ∨ c = ':' ∨ c = '.' ∨
      (sepT = true ∧ c = 'T') ∨ (sepT = false ∧ c = ' ') ∨
      (utcSuf = true ∧ (c = ' ' ∨ c = '(' ∨ c = ')' ∨ c = 'U' ∨ c = 'T' ∨
        c = 'C')) := by
  obtain ⟨d1, d2, d3, sep, d4, d5, d6, fr, su, hs, hd1, hd2, hd3, hd4, hd5,
    hd6, hd7, hsepT, hsepF, hsufT, hsufF⟩ := parseDateTime_decomp h
  rw [hs] at hc
  simp only [List.mem_append, List.mem_cons] at hc
  have hsepMem : c ∈ sep →
      (sepT = true ∧ c = 'T') ∨ (sepT = false ∧ c = ' ') := by
    intro hm
    cases sepT with
    | true =>
      rw [hsepT rfl] at hm
      simp only [List.mem_singleton] at hm
      exact Or.inl ⟨rfl, hm⟩
    | false => exact Or.inr ⟨rfl, (hsepF rfl).2 c hm⟩
  have hsuMem : c ∈ su → utcSuf = true ∧ (c = ' ' ∨ c = '(' ∨ c = ')' ∨
      c = 'U' ∨ c = 'T' ∨ c = 'C') := by
    intro hm
    cases utcSuf with
    | false =>
      rw [hsufF rfl] at hm
      simp at hm
    | true =>
      obtain ⟨sp, hsp, _, hsps⟩ := hsufT rfl
      rw [hsp] at hm
      refine ⟨rfl, ?_⟩
      rcases List.mem_append.mp hm with hm' | hm'
      · exact Or.inl (hsps c hm')
      · simp only [List.mem_cons, List.not_mem_nil, or_false] at hm'
        rcases hm' with rfl | rfl | rfl | rfl | rfl
        · exact Or.inr (Or.inl rfl)
        · exact Or.inr (Or.inr (Or.inr (Or.inl rfl)))
        · exact Or.inr (Or.inr (Or.inr (Or.inr (Or.inl rfl))))
        · exact Or.inr (Or.inr (Or.inr (Or.inr (Or.inr rfl))))
        · exact Or.inr (Or.inr (Or.inl rfl))
  rcases hc with hm | rfl | hm | rfl | hm | hm | hm | rfl | hm | rfl | hm |
      rfl | hm | hm
  · exact Or.inl (hd1 c hm)
  · exact Or.inr (Or.inl rfl)
  · exact Or.inl (hd2 c hm)
  · exact Or.inr (Or.inl rfl)
  · exact Or.inl (hd3 c hm)
  · exact (hsepMem hm).elim
      (fun hx => Or.inr (Or.inr (Or.inr (Or.inr (Or.inl hx)))))
      (fun hx => Or.inr (Or.inr (Or.inr (Or.inr (Or.inr (Or.inl hx))))))
  · exact Or.inl (hd4 c hm)
  · exact Or.inr (Or.inr (Or.inl rfl))
  · exact Or.inl (hd5 c hm)
  · exact Or.inr (Or.inr (Or.inl rfl))
  · exact Or.inl (hd6 c hm)
  · exact Or.inr (Or.inr (Or.inr (Or.inl rfl)))
  · exact Or.inl (hd7 c hm)
  · exact Or.inr (Or.inr (Or.inr (Or.inr (Or.inr (Or.inr (hsuMem hm))))))

/-- A string accepted with the `'T'` separator contains `'T'`; one accepted
with the whitespace separator contains a space. -/
theorem parseDateTime_sep_mem {sepT utcSuf : Bool} {s : List Char}
    {dt : PyDateTime} (h : parseDateTime sepT utcSuf s = some dt) :
    (sepT = true → 'T' ∈ s) ∧ (sepT = false → ' ' ∈ s) := by
  obtain ⟨d1, d2, d3, sep, d4, d5, d6, fr, su, hs, _, _, _, _, _, _, _,
    hsepT, hsepF, _, _⟩ := parseDateTime_decomp h
  constructor
  · intro hT
    rw [hs, hsepT hT]
    simp
  · intro hF
    obtain ⟨hne, hsp⟩ := hsepF hF
    match sep, hne with
    | c0 :: cr, _ =>
      have hc0 : c0 = ' ' := hsp c0 (List.mem_cons_self _ _)
      have hmem : ' ' ∈ c0 :: cr := hc0 ▸ List.mem_cons_self _ _
      rw [hs]
      apply List.mem_append_right
      apply List.mem_cons_of_mem
      apply List.mem_append_right
      apply List.mem_cons_of_mem
      apply List.mem_append_right
      exact List.mem_append_left _ hmem

/-- A string accepted in the `(UTC)` format contains `"UTC"` as a
substring. -/
theorem parseDateTime_utc_sub {s : List Char} {dt : PyDateTime}
    (h : parseDateTime false true s = some dt) :
    containsSub ['U', 'T', 'C'] s = true := by
  obtain ⟨d1, d2, d3, sep, d4, d5, d6, fr, su, hs, _, _, _, _, _, _, _,
    _, _, hsufT, _⟩ := parseDateTime_decomp h
  obtain ⟨sp, hsp, _, _⟩ := hsufT rfl
  have h0 : containsSub ['U', 'T', 'C'] ['(', 'U', 'T', 'C', ')'] = true := by
    decide
  have h1 : containsSub ['U', 'T', 'C'] su = true := by
    rw [hsp]
    exact containsSub_append h0
  rw [hs]
  apply containsSub_append
  apply containsSub_cons
  apply containsSub_append
  apply containsSub_cons
  apply containsSub_append
  apply containsSub_append
  apply containsSub_append
  apply containsSub_cons
  apply containsSub_append
  apply containsSub_cons
  apply containsSub_append
  apply containsSub_cons
  apply containsSub_append
  exact h1

/-- A string accepted without the `(UTC)` suffix contains no `'U'`. -/
theorem parseDateTime_no_U {sepT : Bool} {s : List Char} {dt : PyDateTime}
    (h : parseDateTime sepT false s = some dt) : 'U' ∉ s := by
  intro hU
  rcases parseDateTime_mem_class h hU with hx | hx | hx | hx | ⟨_, hx⟩ |
      ⟨_, hx⟩ | ⟨hx, _⟩ <;> exact absurd hx (by decide)

/-- A string accepted in the plain whitespace format contains no `'T'`. -/
theorem parseDateTime_fmt2_no_T {s : List Char} {dt : PyDateTime}
    (h : parseDateTime false false s = some dt) : 'T' ∉ s := by
  intro hT
  rcases parseDateTime_mem_class h hT with hx | hx | hx | hx | ⟨hx, _⟩ |
      ⟨_, hx⟩ | ⟨hx, _⟩ <;> exact absurd hx (by decide)

/-- The substring-based dispatch of `getTimeDelta` succeeds exactly on the
strings accepted by one of the three formats. -/
theorem dispatch_iff_matches (s : List Char) :
    (dispatchParse s).isSome = matchesThree s := by
  rw [dispatchParse, matchesThree]
  by_cases hU : containsSub ['U', 'T', 'C'] s = true
  · rw [if_pos hU]
    cases h3 : parseDateTime false true s with
    | some dt => simp [h3]
    | none =>
      cases h1 : parseDateTime true false s with
      | some dt =>
        exact absurd (containsSub_mem hU 'U' (by decide))
          (parseDateTime_no_U h1)
      | none =>
        cases h2 : parseDateTime false false s with
        | some dt =>
          exact absurd (containsSub_mem hU 'U' (by decide))
            (parseDateTime_no_U h2)
        | none => simp [h1, h2, h3]
  · rw [if_neg hU]
    by_cases hT : 'T' ∈ s
    · rw [if_pos hT]
      cases h1 : parseDateTime true false s with
      | some dt => simp [h1]
      | none =>
        cases h3 : parseDateTime false true s with
        | some dt => exact absurd (parseDateTime_utc_sub h3) hU
        | none =>
          cases h2 : parseDateTime false false s with
          | some dt => exact absurd hT (parseDateTime_fmt2_no_T h2)
          | none => simp [h1, h2, h3]
    · rw [if_neg hT]
      by_cases hS : ' ' ∈ s
      · rw [if_pos hS]
        cases h2 : parseDateTime false false s with
        | some dt => simp [h2]
        | none =>
          cases h1 : parseDateTime true false s with
          | some dt => exact absurd ((parseDateTime_sep_mem h1).1 rfl) hT
          | none =>
            cases h3 : parseDateTime false true s with
            | some dt => exact absurd (parseDateTime_utc_sub h3) hU
            | none => simp [h1, h2, h3]
      · rw [if_neg hS]
        cases h1 : parseDateTime true false s with
        | some dt => exact absurd ((parseDateTime_sep_mem h1).1 rfl) hT
        | none =>
          cases h2 : parseDateTime false false s with
          | some dt => exact absurd ((parseDateTime_sep_mem h2).2 rfl) hS
          | none =>
            cases h3 : parseDateTime false true s with
            | some dt => exact absurd ((parseDateTime_sep_mem h3).2 rfl) hS
            | none => simp [h1, h2, h3]

/-- Counterexample to C7 as stated: the whole-second input
`"2020-01-01T00:00:01"` matches none of the three recognized encodings
(each requires fractional seconds), yet `getTimeDelta` succeeds on it —
the function first appends `".000"` to any input lacking a `'.'` — and
returns the signed difference 1 second. -/
theorem getTimeDelta_whole_seconds_accepted :
    getTimeDelta ("2020-01-01T00:00:01".data) ("2020-01-01T00:00:00".data) =
        some 1 ∧
      matchesThree ("2020-01-01T00:00:01".data) = false ∧
      matchesThree ("2020-01-01T00:00:00".data) = false := by
  refine ⟨?_, by decide, by decide⟩
  norm_num +decide [getTimeDelta, normalizeTs, dispatchParse, parseDateTime,
    take4, take2, takeFrac, takeFracAux, expectCh, expectSpaces, dropSpaces,
    containsSub, startsWith, digitVal, validDT, daysInMonth, isLeap,
    civilDays, toSecs, show ('0'.toNat : ℕ) = 48 from rfl,
    show ('1'.toNat : ℕ) = 49 from rfl, show ('2'.toNat : ℕ) = 50 from rfl,
    show ('4'.toNat : ℕ) = 52 from rfl]

/-- C7 (amended): `getTimeDelta(a, b)` succeeds exactly when each input,
after the normalization that appends `".000"` to an input containing no
`'.'`, matches one of the three recognized encodings (ISO-style with `'T'`
separator and fractional seconds; space-separated with fractional seconds;
space-separated with fractional seconds plus the literal `"(UTC)"`
suffix); any other input makes the call fail with a surfaced error rather
than return a number.  On success it returns the signed difference
`a - b` in seconds, sign preserved. -/
theorem getTimeDelta_spec (a b : List Char) :
    ((∃ q, getTimeDelta a b = some q) ↔
      matchesThree (normalizeTs a) = true ∧
        matchesThree (normalizeTs b) = true) ∧
    (∀ da db, dispatchParse (normalizeTs a) = some da →
      dispatchParse (normalizeTs b) = some db →
      getTimeDelta a b = some (toSecs da - toSecs db)) := by
  constructor
  · constructor
    · rintro ⟨q, hq⟩
      unfold getTimeDelta at hq
      cases ha : dispatchParse (normalizeTs a) with
      | none => rw [ha] at hq; simp at hq
      | some da =>
        cases hb : dispatchParse (normalizeTs b) with
        | none => rw [ha, hb] at hq; simp at hq
        | some db =>
          constructor
          · rw [← dispatch_iff_matches, ha]; rfl
          · rw [← dispatch_iff_matches, hb]; rfl
    · rintro ⟨h1, h2⟩
      rw [← dispatch_iff_matches] at h1 h2
      rcases Option.isSome_iff_exists.mp h1 with ⟨da, hda⟩
      rcases Option.isSome_iff_exists.mp h2 with ⟨db, hdb⟩
      refine ⟨toSecs da - toSecs db, ?_⟩
      unfold getTimeDelta
      rw [hda, hdb]
  · intro da db hda hdb
    unfold getTimeDelta
    rw [hda, hdb]

/-- Witness for C7's amended theorem: a concrete `(UTC)`-suffixed and a
concrete space-separated timestamp both succeed, hence both match one of
the three encodings after normalization. -/
theorem getTimeDelta_spec_witness :
    matchesThree (normalizeTs ("2023-03-01 12:30:00.5 (UTC)".data)) = true ∧
      matchesThree (normalizeTs ("2023-02-28 23:59:59.25".data)) = true :=
  (getTimeDelta_spec ("2023-03-01 12:30:00.5 (UTC)".data)
    ("2023-02-28 23:59:59.25".data)).1.mp ⟨_, rfl⟩

end PES
